import Mathlib

/-!
Snapshot tracker: announce handling

A shallow embedding of `cmd/snapshots/tracker/commands/root.go`
(`ParseRequest`, `ValidateReq`, `WriteResp`, `Tracker.ServeHTTP`) together with
the properties of the announce state machine.

Conventions of the embedding.

* Go strings and byte slices are lists of byte values (`Bytes`).
* A `time.Time` is an integer number of nanoseconds. `ServeHTTPAt` keeps the
  three places where the handler calls `time.Now()` apart (`Clock`);
  `ServeHTTP` is the handler when all of them read the same instant `now`.
* `encoding/json`, `net.ParseIP` and `net.IP.String` are library code and are
  taken as a parameter (`Lib`).
* The key-value store behind `ethdb.Database` is an ordered association list;
  injected faults (`Faults`) make a store call return an error.
* The handler returns what it wrote, the store it leaves behind and the list of
  store calls it made.
-/

namespace Tracker

/-! ## Bytes, time, machine integers -/

/-- Go byte slices and Go strings: sequences of byte values. -/
abbrev Bytes := List Nat

/-- An ASCII literal of the source as a Go string. -/
def ascii (s : String) : Bytes := s.toList.map Char.toNat

/-- Lexicographic order on keys, as `bytes.Compare` gives `-1`. -/
def bytesLt : Bytes → Bytes → Bool
  | [], [] => false
  | [], _ :: _ => true
  | _ :: _, [] => false
  | a :: as, b :: bs => decide (a < b) || (decide (a = b) && bytesLt as bs)

/-- Lexicographic `≤` on keys. -/
def bytesLe (a b : Bytes) : Bool := !bytesLt b a

/-- The least `time.Duration` (nanoseconds in an int64). -/
def minDuration : Int := -(2 ^ 63)

/-- The greatest `time.Duration`. -/
def maxDuration : Int := 2 ^ 63 - 1

/-- The constant `time.Second`. -/
def Second : Int := 1000000000

/-- The constant `time.Hour`. -/
def Hour : Int := 3600 * Second

/-- The method `Time.Sub` on instants in nanoseconds: the difference, saturated
to the int64 range. -/
def timeSub (t u : Int) : Int :=
  let d := t - u
  if minDuration ≤ d ∧ d ≤ maxDuration then d
  else if t < u then minDuration
  else maxDuration

/-- Wrap an integer into the int32 range (two's complement). -/
def int32 (x : Int) : Int := (x + 2 ^ 31) % 2 ^ 32 - 2 ^ 31

/-- `const DefaultInterval = 60 //in seconds`. -/
def DefaultInterval : Int := 60

/-- `var trackerID`. -/
def trackerID : String := "tg snapshot tracker"

/-! ## Data model -/

/-- `type AnnounceReq struct`. `RemoteAddr` is a `net.IP`, a byte slice. -/
structure AnnounceReq where
  InfoHash : Bytes
  PeerID : Bytes
  RemoteAddr : Bytes
  Port : Int
  Event : Bytes
  Uploaded : Int
  Downloaded : Int
  SupportCrypto : Bool
  Left : Int
  Compact : Bool
deriving DecidableEq, Repr

/-- The zero value `AnnounceReq{}`. -/
def AnnounceReq.zero : AnnounceReq :=
  { InfoHash := [], PeerID := [], RemoteAddr := [], Port := 0, Event := [],
    Uploaded := 0, Downloaded := 0, SupportCrypto := false, Left := 0, Compact := false }

/-- `type AnnounceReqWithTime struct`: the request with `UpdatedAt`. -/
structure AnnounceReqWithTime extends AnnounceReq where
  UpdatedAt : Int
deriving DecidableEq, Repr

/-- One element of `HttpResponse.Peers`: the map with keys `ip`, `peer id`, `port`. -/
structure PeerMap where
  ip : Bytes
  peerID : Bytes
  port : Int
deriving DecidableEq, Repr

/-- `type HttpResponse struct`. -/
structure HttpResponse where
  FailureReason : String
  Interval : Int
  TrackerId : String
  Complete : Int
  Incomplete : Int
  Peers : List PeerMap
deriving DecidableEq, Repr

/-- The literal `HttpResponse{FailureReason: msg}`. -/
def failure (msg : String) : HttpResponse :=
  { FailureReason := msg, Interval := 0, TrackerId := "", Complete := 0, Incomplete := 0,
    Peers := [] }

/-- What `WriteResp` puts on the wire: the response under one of the two encoders. -/
inductive Body where
  | bencode (res : HttpResponse)
  | json (res : HttpResponse)
deriving DecidableEq, Repr

/-- The response structure carried by a body. -/
def Body.res : Body → HttpResponse
  | .bencode r => r
  | .json r => r

/-- `func WriteResp`. -/
def WriteResp (res : HttpResponse) (compact : Bool) : Body :=
  if compact then .bencode res else .json res

/-- Library code used by the handler: `json.Marshal` and `json.Unmarshal` at
`AnnounceReqWithTime` (the latter returns its error together with what the
target holds afterwards), `net.ParseIP` and `net.IP.String`. -/
structure Lib where
  jsonMarshal : AnnounceReqWithTime → Except String Bytes
  jsonUnmarshal : Bytes → Option String × AnnounceReqWithTime
  ParseIP : Bytes → Bytes
  IPString : Bytes → Bytes

/-- The inbound `*http.Request`: the decoded query (`r.URL.Query()`, pairs in
order of appearance) and `r.RemoteAddr`. -/
structure HttpRequest where
  Query : List (Bytes × Bytes)
  RemoteAddr : Bytes
deriving DecidableEq, Repr

/-- `url.Values.Get`: the first value of the key, the empty string when absent. -/
def queryGet (q : List (Bytes × Bytes)) (key : String) : Bytes :=
  match q.find? (fun p => p.1 == ascii key) with
  | some p => p.2
  | none => []

/-! ## strconv -/

/-- The two sentinel errors `strconv.ErrSyntax` and `strconv.ErrRange`. -/
inductive NumErr where
  | ErrSyntax
  | ErrRange
deriving DecidableEq, Repr

/-- `*strconv.NumError`. -/
structure NumError where
  Func : String
  Num : Bytes
  Err : NumErr
deriving DecidableEq, Repr

/-- The input as it is shown in an error message (escapes are not rendered). -/
def quote (b : Bytes) : String :=
  String.singleton (Char.ofNat 34) ++ String.mk (b.map Char.ofNat)
    ++ String.singleton (Char.ofNat 34)

/-- `(*NumError).Error`. -/
def NumError.Error (e : NumError) : String :=
  "strconv." ++ e.Func ++ ": parsing " ++ quote e.Num ++ ": " ++
    (match e.Err with
     | .ErrSyntax => "invalid syntax"
     | .ErrRange => "value out of range")

/-- The digit loop of `strconv.ParseUint` at base 10 and 64 bits. -/
def parseUintLoop : Bytes → Nat → Except NumErr Nat
  | [], n => .ok n
  | c :: cs, n =>
    if 48 ≤ c ∧ c ≤ 57 then
      if n ≥ (2 ^ 64 - 1) / 10 + 1 then .error .ErrRange
      else if n * 10 + (c - 48) > 2 ^ 64 - 1 then .error .ErrRange
      else parseUintLoop cs (n * 10 + (c - 48))
    else .error .ErrSyntax

/-- `strconv.ParseUint(s, 10, 64)`. -/
def ParseUint (s : Bytes) : Except NumErr Nat :=
  if s = [] then .error .ErrSyntax else parseUintLoop s 0

/-- `strconv.ParseInt(s, 10, 64)`. -/
def ParseInt (s0 : Bytes) : Except NumError Int :=
  match s0 with
  | [] => .error ⟨"ParseInt", s0, .ErrSyntax⟩
  | c :: rest =>
    let neg := decide (c = 45)
    let s := if c = 43 ∨ c = 45 then rest else s0
    match ParseUint s with
    | .error .ErrSyntax => .error ⟨"ParseInt", s0, .ErrSyntax⟩
    | .error .ErrRange => .error ⟨"ParseInt", s0, .ErrRange⟩
    | .ok un =>
      if !neg && decide (un ≥ 2 ^ 63) then .error ⟨"ParseInt", s0, .ErrRange⟩
      else if neg && decide (un > 2 ^ 63) then .error ⟨"ParseInt", s0, .ErrRange⟩
      else if neg then .ok (-(un : Int)) else .ok (un : Int)

/-- `strconv.Atoi` on a 64-bit platform: `ParseInt` with the error renamed. -/
def Atoi (s : Bytes) : Except NumError Int :=
  match ParseInt s with
  | .ok n => .ok n
  | .error e => .error { e with Func := "Atoi" }

/-! ## Request parsing and validation -/

/-- `strings.Contains(s, ":")`. -/
def containsColon (s : Bytes) : Bool := s.contains 58

/-- `strings.Split(s, ":")[0]`: the part before the first colon. -/
def splitColonHead (s : Bytes) : Bytes := s.takeWhile (fun c => c != 58)

/-- `func ParseRequest`: the request and the error, as the Go pair. -/
def ParseRequest (L : Lib) (r : HttpRequest) : AnnounceReq × Option NumError :=
  let q := r.Query
  let remoteAddr :=
    if containsColon r.RemoteAddr then L.ParseIP (splitColonHead r.RemoteAddr)
    else L.ParseIP r.RemoteAddr
  match ParseInt (queryGet q "downloaded") with
  | .error e => (AnnounceReq.zero, some e)
  | .ok downloaded =>
  match ParseInt (queryGet q "uploaded") with
  | .error e => (AnnounceReq.zero, some e)
  | .ok uploaded =>
  match ParseInt (queryGet q "left") with
  | .error e => (AnnounceReq.zero, some e)
  | .ok left =>
  match Atoi (queryGet q "port") with
  | .error e => (AnnounceReq.zero, some e)
  | .ok port =>
    ({ InfoHash := queryGet q "info_hash",
       PeerID := queryGet q "peer_id",
       RemoteAddr := remoteAddr,
       Event := queryGet q "event",
       Compact := decide (queryGet q "compact" = ascii "1"),
       SupportCrypto := decide (queryGet q "supportcrypto" = ascii "1"),
       Downloaded := downloaded,
       Uploaded := uploaded,
       Left := left,
       Port := port }, none)

/-- `func ValidateReq`: the error message, or `none` for `nil`. -/
def ValidateReq (req : AnnounceReq) : Option String :=
  if req.InfoHash.length ≠ 20 then some "invalid infohash"
  else if req.PeerID.length ≠ 20 then some "invalid peer id"
  else none

/-! ## The peer store -/

/-- The bucket of peer records: key-value pairs, kept in ascending key order. -/
abbrev Store := List (Bytes × Bytes)

/-- The four store calls of the handler. -/
inductive OpKind where
  | get
  | put
  | delete
  | walk
deriving DecidableEq, Repr

/-- Injected store failures: the error message a kind of call returns, if any. -/
abbrev Faults := OpKind → Option String

/-- A working store: no call fails. -/
def noFaults : Faults := fun _ => none

/-- Errors of a point read: `ethdb.ErrKeyNotFound` or any other error. -/
inductive DBError where
  | ErrKeyNotFound
  | other (msg : String)
deriving DecidableEq, Repr

/-- One store call made by the handler, with its arguments. -/
inductive DBOp where
  | get (key : Bytes)
  | put (key value : Bytes)
  | delete (key : Bytes)
  | walk (startkey : Bytes) (count : Nat)
deriving DecidableEq, Repr

/-- A call that changes the store. -/
def DBOp.isMutation : DBOp → Bool
  | .put _ _ => true
  | .delete _ => true
  | _ => false

/-- The value bound to a key, if any. -/
def Store.lookup (db : Store) (key : Bytes) : Option Bytes :=
  match db.find? (fun e => e.1 == key) with
  | some e => some e.2
  | none => none

/-- Bind a key, replacing an earlier binding and keeping the key order. -/
def Store.insert (key value : Bytes) : Store → Store
  | [] => [(key, value)]
  | (k, v) :: rest =>
    if bytesLt key k then (key, value) :: (k, v) :: rest
    else if key = k then (key, value) :: rest
    else (k, v) :: Store.insert key value rest

/-- Remove the binding of a key. -/
def Store.erase (db : Store) (key : Bytes) : Store :=
  db.filter (fun e => e.1 != key)

/-- The records a scan visits: at most `count` records with keys from
`startkey` on, in store order. -/
def Store.window (db : Store) (startkey : Bytes) (count : Nat) : Store :=
  (db.filter (fun e => bytesLe startkey e.1)).take count

/-- The keys of the store are strictly ascending. -/
def Store.Sorted (db : Store) : Prop :=
  db.Pairwise (fun a b => bytesLt a.1 b.1 = true)

/-- Modelled from the spec: `ethdb.Database.Get` on the peer bucket, the
spec's `get(key) -> bytes | NotFound`. -/
def Get (F : Faults) (db : Store) (key : Bytes) : Except DBError Bytes :=
  match F .get with
  | some msg => .error (.other msg)
  | none =>
    match db.lookup key with
    | some v => .ok v
    | none => .error .ErrKeyNotFound

/-- Modelled from the spec: `ethdb.Database.Put` on the peer bucket, the
spec's `put(key, value) -> ok | StoreError`. -/
def Put (F : Faults) (db : Store) (key value : Bytes) : Except String Store :=
  match F .put with
  | some msg => .error msg
  | none => .ok (db.insert key value)

/-- Modelled from the spec: `ethdb.Database.Delete` on the peer bucket, the
spec's `delete(key) -> ok | StoreError`. -/
def Delete (F : Faults) (db : Store) (key : Bytes) : Except String Store :=
  match F .delete with
  | some msg => .error msg
  | none => .ok (db.erase key)

/-- The visiting loop of a scan: the callback returns the new state, whether to
go on, and an error. -/
def walkLoop {σ : Type} (walker : σ → Bytes → Bytes → σ × Bool × Option String) :
    List (Bytes × Bytes) → σ → σ × Option String
  | [], s => (s, none)
  | (k, v) :: rest, s =>
    match walker s k v with
    | (s1, _, some e) => (s1, some e)
    | (s1, false, none) => (s1, none)
    | (s1, true, none) => walkLoop walker rest s1

/-- Modelled from the spec: `ethdb.Database.Walk` on the peer bucket, the
spec's `scan(start_key, max_count, visit)`: it visits up to `max_count` keys in
ascending key order starting at `start_key`, stopping early if `visit` returns
false. -/
def Walk {σ : Type} (F : Faults) (db : Store) (startkey : Bytes) (count : Nat)
    (walker : σ → Bytes → Bytes → σ × Bool × Option String) (init : σ) : σ × Option String :=
  match F .walk with
  | some msg => (init, some msg)
  | none => walkLoop walker (db.window startkey count) init

/-! ## The handler -/

/-- The outcome of one call of the handler: the body written, the store left
behind, and the store calls made, in order. -/
structure Result where
  body : Body
  db : Store
  ops : List DBOp
deriving DecidableEq, Repr

/-- The callback passed to `Walk` in `ServeHTTP` (lines 192-215); the state is
the response under construction. -/
def walker (L : Lib) (now : Int) (resp : HttpResponse) (_k v : Bytes) :
    HttpResponse × Bool × Option String :=
  match L.jsonUnmarshal v with
  | (some _, _) => (resp, true, none)
  | (none, a) =>
    if timeSub now a.UpdatedAt > 24 * Hour then (resp, true, none)
    else
      let resp1 :=
        if a.Left = 0 then { resp with Complete := int32 (resp.Complete + 1) }
        else { resp with Incomplete := int32 (resp.Incomplete + 1) }
      ({ resp1 with
          Peers := resp1.Peers ++ [⟨L.IPString a.RemoteAddr, a.PeerID, a.Port⟩] }, true, none)

/-- The start key of the scan: `append(req.InfoHash, make([]byte, 20)...)`. -/
def startKey (req : AnnounceReq) : Bytes := req.InfoHash ++ List.replicate 20 0

/-- Lines 187-222 of `ServeHTTP`: enumerate the swarm and respond. -/
def enumerate (L : Lib) (F : Faults) (now : Int) (req : AnnounceReq) (db : Store)
    (ops : List DBOp) : Result :=
  let resp : HttpResponse :=
    { FailureReason := "", Interval := DefaultInterval, TrackerId := trackerID,
      Complete := 0, Incomplete := 0, Peers := [] }
  match Walk F db (startKey req) (20 * 8) (walker L now) resp with
  | (_, some e) =>
    ⟨WriteResp (failure e) req.Compact, db, ops ++ [.walk (startKey req) (20 * 8)]⟩
  | (resp1, none) =>
    ⟨WriteResp resp1 req.Compact, db, ops ++ [.walk (startKey req) (20 * 8)]⟩

/-- Lines 162-178 of `ServeHTTP`: read the prior record; the failure reason that
ends the request before the write, if any. -/
def checkPrev (L : Lib) (F : Faults) (now : Int) (db : Store) (key : Bytes) : Option String :=
  match Get F db key with
  | .ok prevBytes =>
    if prevBytes.length > 0 then
      let prev := (L.jsonUnmarshal prevBytes).2
      if timeSub now prev.UpdatedAt < Second * DefaultInterval then some "too early to update"
      else none
    else none
  | .error .ErrKeyNotFound => none
  | .error (.other msg) => some msg

/-- `func (t *Tracker) ServeHTTP`, with the store `t.db` and the clock made
explicit, when every `time.Now()` of the call returns `now`; `ServeHTTPAt` is
the handler with the clock reads kept apart. -/
def ServeHTTP (L : Lib) (F : Faults) (db : Store) (now : Int) (r : HttpRequest) : Result :=
  match ParseRequest L r with
  | (req, some err) => ⟨WriteResp (failure err.Error) req.Compact, db, []⟩
  | (req, none) =>
  match ValidateReq req with
  | some err => ⟨WriteResp (failure err) req.Compact, db, []⟩
  | none =>
  match L.jsonMarshal { toAnnounceReq := req, UpdatedAt := now } with
  | .error err => ⟨WriteResp (failure err) req.Compact, db, []⟩
  | .ok peerBytes =>
  let key := req.InfoHash ++ req.PeerID
  if req.Event = ascii "stopped" then
    match Delete F db key with
    | .error err => ⟨WriteResp (failure err) req.Compact, db, [.delete key]⟩
    | .ok db1 => enumerate L F now req db1 [.delete key]
  else
    match checkPrev L F now db key with
    | some reason => ⟨WriteResp (failure reason) req.Compact, db, [.get key]⟩
    | none =>
      match Put F db key peerBytes with
      | .error err => ⟨WriteResp (failure err) req.Compact, db, [.get key, .put key peerBytes]⟩
      | .ok db1 => enumerate L F now req db1 [.get key, .put key peerBytes]

/-! ## Serving several requests -/

/-- Serve a list of timed requests one after the other; the results, in order. -/
def serveAll (L : Lib) (F : Faults) : Store → List (Int × HttpRequest) → List Result
  | _, [] => []
  | db, (t, r) :: rest =>
    (ServeHTTP L F db t r) :: serveAll L F (ServeHTTP L F db t r).db rest

/-- The store left behind after serving a list of timed requests. -/
def storeAfter (L : Lib) (F : Faults) : Store → List (Int × HttpRequest) → Store
  | db, [] => db
  | db, (t, r) :: rest => storeAfter L F (ServeHTTP L F db t r).db rest

/-- The call wrote a record under the key. -/
def Result.wrote (res : Result) (key : Bytes) : Bool :=
  res.ops.any (fun op =>
    match op with
    | .put k _ => k == key
    | _ => false)

/-- The times, in order, of the requests of a run that wrote a record under the key. -/
def writeTimes (L : Lib) (F : Faults) (key : Bytes) : Store → List (Int × HttpRequest) → List Int
  | _, [] => []
  | db, (t, r) :: rest =>
    (if (ServeHTTP L F db t r).wrote key then [t] else []) ++
      writeTimes L F key (ServeHTTP L F db t r).db rest

/-! ## The records behind a response -/

/-- What the scan callback keeps of a stored value: the record, when the value
deserializes and is not older than 24 hours. -/
def fresh (L : Lib) (now : Int) (v : Bytes) : Option AnnounceReqWithTime :=
  match L.jsonUnmarshal v with
  | (some _, _) => none
  | (none, a) => if timeSub now a.UpdatedAt > 24 * Hour then none else some a

/-- The peer descriptor the callback appends for a record. -/
def peerOf (L : Lib) (a : AnnounceReqWithTime) : PeerMap :=
  ⟨L.IPString a.RemoteAddr, a.PeerID, a.Port⟩

/-- The keyed records the callback keeps among a list of visited entries. -/
def listed (L : Lib) (now : Int) (es : List (Bytes × Bytes)) :
    List (Bytes × AnnounceReqWithTime) :=
  es.filterMap (fun e =>
    match fresh L now e.2 with
    | some a => some (e.1, a)
    | none => none)

/-- The entries the scan of a request visits in a store. -/
def visited (db : Store) (req : AnnounceReq) : List (Bytes × Bytes) :=
  db.window (startKey req) (20 * 8)

/-- The swarm of a request in a store: the keyed records kept by its scan. -/
def swarmOf (L : Lib) (now : Int) (db : Store) (req : AnnounceReq) :
    List (Bytes × AnnounceReqWithTime) :=
  listed L now (visited db req)

/-- The response of line 222: no failure reason and the interval set. -/
def Result.success (res : Result) : Prop :=
  res.body.res.FailureReason = "" ∧ res.body.res.Interval = DefaultInterval

/-- A base-10 integer in the words of the spec: an optional sign and at least
one decimal digit, nothing else. -/
def isBase10Integer (s : Bytes) : Bool :=
  match s with
  | [] => false
  | c :: rest =>
    let digits := if c = 43 ∨ c = 45 then rest else s
    !digits.isEmpty && digits.all (fun d => decide (48 ≤ d ∧ d ≤ 57))

/-! ## A reference instance of the library -/

/-- Two cells for an integer: a sign flag and the magnitude. -/
def encInt (x : Int) : List Nat := [if x < 0 then 1 else 0, x.natAbs]

/-- The integer of a sign flag and a magnitude. -/
def decInt (s n : Nat) : Int := if s = 0 then (n : Int) else -(n : Int)

/-- A fixed-layout serialization of a record. -/
def refMarshal (r : AnnounceReqWithTime) : Bytes :=
  encInt r.UpdatedAt ++ encInt r.Port ++ encInt r.Uploaded ++ encInt r.Downloaded ++
    encInt r.Left ++
    [if r.SupportCrypto then 1 else 0, if r.Compact then 1 else 0, r.InfoHash.length] ++
    r.InfoHash ++ [r.PeerID.length] ++ r.PeerID ++ [r.RemoteAddr.length] ++ r.RemoteAddr ++
    r.Event

/-- The zero value of `AnnounceReqWithTime`. -/
def AnnounceReqWithTime.zero : AnnounceReqWithTime :=
  { toAnnounceReq := AnnounceReq.zero, UpdatedAt := 0 }

/-- The inverse of `refMarshal`; on a malformed value, an error and the zero record. -/
def refUnmarshal : Bytes → Option String × AnnounceReqWithTime
  | s0 :: n0 :: s1 :: n1 :: s2 :: n2 :: s3 :: n3 :: s4 :: n4 :: c :: k :: lh :: rest =>
    match rest.drop lh with
    | lp :: rest2 =>
      match rest2.drop lp with
      | la :: rest3 =>
        (none,
          { InfoHash := rest.take lh, PeerID := rest2.take lp, RemoteAddr := rest3.take la,
            Port := decInt s1 n1, Event := rest3.drop la, Uploaded := decInt s2 n2,
            Downloaded := decInt s3 n3, SupportCrypto := decide (c = 1), Left := decInt s4 n4,
            Compact := decide (k = 1), UpdatedAt := decInt s0 n0 })
      | [] => (some "unexpected end of input", AnnounceReqWithTime.zero)
    | [] => (some "unexpected end of input", AnnounceReqWithTime.zero)
  | _ => (some "unexpected end of input", AnnounceReqWithTime.zero)

/-- A concrete library: the fixed-layout codec, addresses kept as their text. -/
def refLib : Lib :=
  { jsonMarshal := fun r => .ok (refMarshal r),
    jsonUnmarshal := refUnmarshal,
    ParseIP := fun s => s,
    IPString := fun ip => ip }

/-- An announce request with the given identifiers, `left`, and event. -/
def mkRequest (infoHash peerID : Bytes) (left event : String) : HttpRequest :=
  { Query := [(ascii "info_hash", infoHash), (ascii "peer_id", peerID),
              (ascii "port", ascii "6881"), (ascii "uploaded", ascii "0"),
              (ascii "downloaded", ascii "0"), (ascii "left", ascii left),
              (ascii "event", ascii event)],
    RemoteAddr := ascii "10.0.0.1:5000" }

/-- A content id for worked examples: twenty bytes `1`. -/
def hashA : Bytes := List.replicate 20 1

/-- A larger content id for worked examples: twenty bytes `9`. -/
def hashB : Bytes := List.replicate 20 9

/-- A peer id for worked examples: twenty bytes `2`. -/
def peerA : Bytes := List.replicate 20 2

/-- Another peer id for worked examples: twenty bytes `3`. -/
def peerB : Bytes := List.replicate 20 3

/-- The request `ParseRequest` builds from `mkRequest hashA peerA left event`. -/
def parsedA (left event : String) : AnnounceReq :=
  (ParseRequest refLib (mkRequest hashA peerA left event)).1

/-- The request is a valid announce of the peer `(infoHash, peerID)`: it parses,
passes validation and carries these identifiers. -/
def fromPeer (L : Lib) (infoHash peerID : Bytes) (r : HttpRequest) : Prop :=
  (ParseRequest L r).2 = none ∧ ValidateReq (ParseRequest L r).1 = none ∧
    (ParseRequest L r).1.InfoHash = infoHash ∧ (ParseRequest L r).1.PeerID = peerID

instance (L : Lib) (infoHash peerID : Bytes) (r : HttpRequest) :
    Decidable (fromPeer L infoHash peerID r) := by
  unfold fromPeer
  infer_instance

/-- The stored value under the key is non-empty and deserializes with this `UpdatedAt`. -/
def stampedAt (L : Lib) (db : Store) (key : Bytes) (w : Int) : Prop :=
  ∃ b, db.lookup key = some b ∧ b ≠ [] ∧ (L.jsonUnmarshal b).2.UpdatedAt = w

/-- A run of one peer with a "stopped" in the middle: started, stopped 10 s later,
started again 20 s after the first. -/
def runStopped : List (Int × HttpRequest) :=
  [(0, mkRequest hashA peerA "7" "started"),
   (10000000000, mkRequest hashA peerA "7" "stopped"),
   (20000000000, mkRequest hashA peerA "7" "started")]

/-- The store after peer A announced "started" at time 0 against an empty store. -/
def storeA : Store :=
  (ServeHTTP refLib noFaults [] 0 (mkRequest hashA peerA "7" "started")).db

/-- Two days, in nanoseconds. -/
def twoDays : Int := 172800000000000

/-- An announce whose `info_hash` has 19 bytes, with event "stopped". -/
def shortHashRequest : HttpRequest :=
  mkRequest (List.replicate 19 1) peerA "7" "stopped"

/-- An announce whose `port` is not a number. -/
def badPortRequest : HttpRequest :=
  { Query := [(ascii "info_hash", hashA), (ascii "peer_id", peerA),
              (ascii "port", ascii "http"), (ascii "uploaded", ascii "0"),
              (ascii "downloaded", ascii "0"), (ascii "left", ascii "7")],
    RemoteAddr := ascii "10.0.0.1:5000" }

/-- The store after peer B of the larger content id `hashB` announced at time 0. -/
def storeB : Store :=
  (ServeHTTP refLib noFaults [] 0 (mkRequest hashB peerB "0" "completed")).db

/-- The record peer B of content id `hashB` wrote at time 0. -/
def recordB : AnnounceReqWithTime :=
  ⟨(ParseRequest refLib (mkRequest hashB peerB "0" "completed")).1, 0⟩

/-- A store whose put fails with the message "disk full"; every other call works. -/
def failingPut : Faults := fun k =>
  match k with
  | .put => some "disk full"
  | _ => none

/-- An announce of peer A with the given `port` parameter. -/
def portRequest (port : String) : HttpRequest :=
  { Query := [(ascii "info_hash", hashA), (ascii "peer_id", peerA),
              (ascii "port", ascii port), (ascii "uploaded", ascii "0"),
              (ascii "downloaded", ascii "0"), (ascii "left", ascii "7")],
    RemoteAddr := ascii "10.0.0.1:5000" }

/-- A decoder that, like `json.Unmarshal` on a value of the wrong type for one
field, reports the error and still fills the other fields: a stored value whose
port sign cell (index 2) is neither 0 nor 1 is read with `Port` left at zero and
an error. -/
def typeErrorUnmarshal (b : Bytes) : Option String × AnnounceReqWithTime :=
  match refUnmarshal b with
  | (none, a) =>
    if b.getD 2 0 > 1 then
      (some "json: cannot unmarshal string into Go struct field .Port of type int",
        { a with Port := 0 })
    else (none, a)
  | (some e, a) => (some e, a)

/-- The reference library with the decoder that fills what it can. -/
def typeErrorLib : Lib := { refLib with jsonUnmarshal := typeErrorUnmarshal }

/-- A stored value of peer A stamped at time 0 whose port cell is damaged. -/
def damagedValue : Bytes :=
  (refMarshal ⟨parsedA "7" "started", 0⟩).set 2 7

/-- An announce of peer A arriving over IPv6 from `[::1]:8080`. -/
def ipv6Request : HttpRequest :=
  { Query := [(ascii "info_hash", hashA), (ascii "peer_id", peerA),
              (ascii "port", ascii "6881"), (ascii "uploaded", ascii "0"),
              (ascii "downloaded", ascii "0"), (ascii "left", ascii "7")],
    RemoteAddr := ascii "[::1]:8080" }

/-- The instants `time.Now()` returns during one call of `ServeHTTP`: at line 144
(the stamp put into the record), at line 168 (the throttle check) and at line 200
(in the scan callback, at the record under the given key). -/
structure Clock where
  stamp : Int
  check : Int
  scan : Bytes → Int

/-- A clock that reads the same instant at every place. -/
def Clock.instant (now : Int) : Clock := ⟨now, now, fun _ => now⟩

/-- The callback passed to `Walk` (lines 192-215), reading the clock at line 200
when it is called on the record under key `k`. -/
def walkerAt (L : Lib) (c : Clock) (resp : HttpResponse) (k v : Bytes) :
    HttpResponse × Bool × Option String :=
  walker L (c.scan k) resp k v

/-- Lines 187-222 of `ServeHTTP` with the clock reads of the callback. -/
def enumerateAt (L : Lib) (F : Faults) (c : Clock) (req : AnnounceReq) (db : Store)
    (ops : List DBOp) : Result :=
  let resp : HttpResponse :=
    { FailureReason := "", Interval := DefaultInterval, TrackerId := trackerID,
      Complete := 0, Incomplete := 0, Peers := [] }
  match Walk F db (startKey req) (20 * 8) (walkerAt L c) resp with
  | (_, some e) =>
    ⟨WriteResp (failure e) req.Compact, db, ops ++ [.walk (startKey req) (20 * 8)]⟩
  | (resp1, none) =>
    ⟨WriteResp resp1 req.Compact, db, ops ++ [.walk (startKey req) (20 * 8)]⟩

/-- `func (t *Tracker) ServeHTTP` with its three clock reads kept apart: the
record is stamped with `c.stamp` (line 144), the throttle compares `c.check`
(line 168) and the scan callback reads `c.scan` (line 200). -/
def ServeHTTPAt (L : Lib) (F : Faults) (db : Store) (c : Clock) (r : HttpRequest) : Result :=
  match ParseRequest L r with
  | (req, some err) => ⟨WriteResp (failure err.Error) req.Compact, db, []⟩
  | (req, none) =>
  match ValidateReq req with
  | some err => ⟨WriteResp (failure err) req.Compact, db, []⟩
  | none =>
  match L.jsonMarshal { toAnnounceReq := req, UpdatedAt := c.stamp } with
  | .error err => ⟨WriteResp (failure err) req.Compact, db, []⟩
  | .ok peerBytes =>
  let key := req.InfoHash ++ req.PeerID
  if req.Event = ascii "stopped" then
    match Delete F db key with
    | .error err => ⟨WriteResp (failure err) req.Compact, db, [.delete key]⟩
    | .ok db1 => enumerateAt L F c req db1 [.delete key]
  else
    match checkPrev L F c.check db key with
    | some reason => ⟨WriteResp (failure reason) req.Compact, db, [.get key]⟩
    | none =>
      match Put F db key peerBytes with
      | .error err => ⟨WriteResp (failure err) req.Compact, db, [.get key, .put key peerBytes]⟩
      | .ok db1 => enumerateAt L F c req db1 [.get key, .put key peerBytes]

/-- The keyed records the callback keeps among visited entries when it reads
the clock `scan k` at the record under `k`. -/
def listedAt (L : Lib) (scan : Bytes → Int) (es : List (Bytes × Bytes)) :
    List (Bytes × AnnounceReqWithTime) :=
  es.filterMap (fun e =>
    match fresh L (scan e.1) e.2 with
    | some a => some (e.1, a)
    | none => none)

/-- For each request of a run that wrote a record under the key: the stamp it
wrote (line 144) and the instant of its throttle check (line 168). -/
def writeMarks (L : Lib) (F : Faults) (key : Bytes) :
    Store → List (Clock × HttpRequest) → List (Int × Int)
  | _, [] => []
  | db, (c, r) :: rest =>
    (if (ServeHTTPAt L F db c r).wrote key then [(c.stamp, c.check)] else []) ++
      writeMarks L F key (ServeHTTPAt L F db c r).db rest

/-- A run of one peer in which each request stamps its record a tenth of a second
before its throttle check: stamps 0 s, 59.9 s and 119.8 s. -/
def runDrift : List (Clock × HttpRequest) :=
  [(⟨0, 0, fun _ => 0⟩, mkRequest hashA peerA "7" "started"),
   (⟨59900000000, 60000000000, fun _ => 60000000000⟩, mkRequest hashA peerA "7" ""),
   (⟨119800000000, 119900000000, fun _ => 119900000000⟩, mkRequest hashA peerA "0" "completed")]

/-! ## UTF-8 and the strings of encoding/json -/

/-- A UTF-8 continuation byte. -/
def isCont (b : Nat) : Bool := decide (128 ≤ b ∧ b ≤ 191)

/-- The length of the valid UTF-8 sequence a string starts with, `0` when it
starts with none (the acceptance ranges of Go's `unicode/utf8`). -/
def seqLen : Bytes → Nat
  | [] => 0
  | a :: rest =>
    if a < 128 then 1
    else if 194 ≤ a ∧ a ≤ 223 then
      match rest with
      | b :: _ => if isCont b then 2 else 0
      | [] => 0
    else if 224 ≤ a ∧ a ≤ 239 then
      match rest with
      | b :: c :: _ =>
        if decide ((if a = 224 then 160 else 128) ≤ b ∧ b ≤ (if a = 237 then 159 else 191))
            && isCont c then 3
        else 0
      | _ => 0
    else if 240 ≤ a ∧ a ≤ 244 then
      match rest with
      | b :: c :: d :: _ =>
        if decide ((if a = 240 then 144 else 128) ≤ b ∧ b ≤ (if a = 244 then 143 else 191))
            && isCont c && isCont d then 4
        else 0
      | _ => 0
    else 0

/-- The loop of `utf8.ValidString`, with fuel. -/
def validLoop : Nat → Bytes → Bool
  | _, [] => true
  | 0, _ :: _ => false
  | n + 1, a :: rest =>
    decide (seqLen (a :: rest) ≠ 0) && validLoop n ((a :: rest).drop (seqLen (a :: rest)))

/-- `utf8.ValidString`. -/
def validUTF8 (s : Bytes) : Bool := validLoop s.length s

/-- The loop that rewrites a string as encoding/json stores it, with fuel: a byte
that starts no valid UTF-8 sequence becomes U+FFFD (bytes EF BF BD). -/
def coerceLoop : Nat → Bytes → Bytes
  | _, [] => []
  | 0, _ :: _ => []
  | n + 1, a :: rest =>
    if seqLen (a :: rest) = 0 then [239, 191, 189] ++ coerceLoop n rest
    else (a :: rest).take (seqLen (a :: rest)) ++
      coerceLoop n ((a :: rest).drop (seqLen (a :: rest)))

/-- A Go string after a round trip through `json.Marshal` and `json.Unmarshal`. -/
def coerceUTF8 (s : Bytes) : Bytes := coerceLoop s.length s

/-- The reference serialization with the event string stored as encoding/json
stores strings. -/
def utf8Marshal (r : AnnounceReqWithTime) : Bytes :=
  refMarshal { r with Event := coerceUTF8 r.Event }

/-- The reference library with the string coercion of encoding/json. -/
def utf8Lib : Lib := { refLib with jsonMarshal := fun r => .ok (utf8Marshal r) }

/-- An announce of peer A whose `event` parameter is the single byte FF. -/
def rawEventRequest : HttpRequest :=
  { Query := [(ascii "info_hash", hashA), (ascii "peer_id", peerA),
              (ascii "port", ascii "6881"), (ascii "uploaded", ascii "0"),
              (ascii "downloaded", ascii "0"), (ascii "left", ascii "7"),
              (ascii "event", [255])],
    RemoteAddr := ascii "10.0.0.1:5000" }

/-! ## Addresses -/

/-- `net.JoinHostPort`, which forms the remote address of a connection: a host
that contains a colon is put in brackets. -/
def JoinHostPort (host port : Bytes) : Bytes :=
  if host.contains 58 then [91] ++ host ++ [93, 58] ++ port else host ++ [58] ++ port

/-- The parts of a string between its dots. -/
def splitDots : Bytes → List Bytes
  | [] => [[]]
  | c :: cs =>
    if c = 46 then [] :: splitDots cs
    else
      match splitDots cs with
      | p :: ps => (c :: p) :: ps
      | [] => [[c]]

/-- One decimal octet of a dotted quad. -/
def octet (p : Bytes) : Option Nat :=
  if p = [] ∨ p.length > 3 then none
  else
    match parseUintLoop p 0 with
    | .ok n => if n ≤ 255 then some n else none
    | .error _ => none

/-- A stand-in for `net.ParseIP` that knows the IPv4 dotted form only: a dotted
quad gives the 16-byte form, every other string (any string with a bracket
among them) gives nil. -/
def parseDotted (s : Bytes) : Bytes :=
  if s.all (fun c => decide ((48 ≤ c ∧ c ≤ 57) ∨ c = 46)) then
    match (splitDots s).map octet with
    | [some a, some b, some c, some d] => [0, 0, 0, 0, 0, 0, 0, 0, 0, 0, 255, 255, a, b, c, d]
    | _ => []
  else []

/-- The reference library with `parseDotted` for `net.ParseIP`. -/
def dottedLib : Lib := { refLib with ParseIP := parseDotted }

/-- A store in key order holding, for content id `hashA`, a value of peer B that
does not deserialize, and the record peer B of `hashB` wrote at time 0. -/
def mixedStore : Store :=
  [(hashA ++ peerB, [1, 2, 3]), (hashB ++ peerB, refMarshal recordB)]

/-- The counter after `n` increments `x++` on an int32 field starting at `c`. -/
def bump (c : Int) (n : Nat) : Int := (fun x => int32 (x + 1))^[n] c

/-- The response after the callback has counted and appended one record. -/
def addPeer (L : Lib) (resp : HttpResponse) (a : AnnounceReqWithTime) : HttpResponse :=
  { resp with
    Complete := if a.Left = 0 then int32 (resp.Complete + 1) else resp.Complete,
    Incomplete := if a.Left = 0 then resp.Incomplete else int32 (resp.Incomplete + 1),
    Peers := resp.Peers ++ [⟨L.IPString a.RemoteAddr, a.PeerID, a.Port⟩] }

/-- The response written at line 222 when the scan kept the keyed records `S`. -/
def successResp (L : Lib) (S : List (Bytes × AnnounceReqWithTime)) : HttpResponse :=
  { FailureReason := "", Interval := DefaultInterval, TrackerId := trackerID,
    Complete := (S.countP (fun ka => decide (ka.2.Left = 0)) : Nat),
    Incomplete := (S.countP (fun ka => !decide (ka.2.Left = 0)) : Nat),
    Peers := S.map (fun ka => peerOf L ka.2) }

/-! ## Basic facts: time and counters -/

theorem timeSub_lt_iff (t u c : Int) (h1 : -(2 ^ 63) < c) (h2 : c ≤ 2 ^ 63 - 1) :
    timeSub t u < c ↔ t - u < c := by
  have e : timeSub t u = if -(2 ^ 63) ≤ t - u ∧ t - u ≤ 2 ^ 63 - 1 then t - u
      else if t < u then -(2 ^ 63) else 2 ^ 63 - 1 := rfl
  rw [e]
  split_ifs with a b <;> constructor <;> intro h <;> omega

theorem timeSub_gt_iff (t u c : Int) (h1 : -(2 ^ 63) ≤ c) (h2 : c < 2 ^ 63 - 1) :
    timeSub t u > c ↔ t - u > c := by
  have e : timeSub t u = if -(2 ^ 63) ≤ t - u ∧ t - u ≤ 2 ^ 63 - 1 then t - u
      else if t < u then -(2 ^ 63) else 2 ^ 63 - 1 := rfl
  rw [e]
  split_ifs with a b <;> constructor <;> intro h <;> omega

theorem tooEarly_iff (t u : Int) :
    timeSub t u < Second * DefaultInterval ↔ t - u < 60000000000 := by
  rw [timeSub_lt_iff] <;> simp [Second, DefaultInterval]

theorem expired_iff (t u : Int) :
    timeSub t u > 24 * Hour ↔ t - u > 86400000000000 := by
  rw [timeSub_gt_iff] <;> simp [Hour, Second]

theorem bump_succ (c : Int) (n : Nat) : bump c (n + 1) = int32 (bump c n + 1) := by
  unfold bump
  rw [Function.iterate_succ_apply']

theorem bump_succ_left (c : Int) (n : Nat) : bump c (n + 1) = bump (int32 (c + 1)) n := by
  unfold bump
  rw [Function.iterate_succ_apply]

theorem bump_zero_eq (n : Nat) (h : n < 2 ^ 31) : bump 0 n = (n : Int) := by
  induction n with
  | zero => rfl
  | succ k ih =>
    rw [bump_succ, ih (by omega)]
    unfold int32
    push_cast
    omega

/-! ## Basic facts: key order -/

theorem bytesLt_irrefl (a : Bytes) : bytesLt a a = false := by
  induction a with
  | nil => rfl
  | cons x xs ih => simp [bytesLt, ih]

theorem bytesLt_trans (a b c : Bytes) (hab : bytesLt a b = true) (hbc : bytesLt b c = true) :
    bytesLt a c = true := by
  induction a generalizing b c with
  | nil =>
    cases b with
    | nil => simp [bytesLt] at hab
    | cons y ys =>
      cases c with
      | nil => simp [bytesLt] at hbc
      | cons z zs => simp [bytesLt]
  | cons x xs ih =>
    cases b with
    | nil => simp [bytesLt] at hab
    | cons y ys =>
      cases c with
      | nil => simp [bytesLt] at hbc
      | cons z zs =>
        simp only [bytesLt, Bool.or_eq_true, Bool.and_eq_true, decide_eq_true_eq] at hab hbc ⊢
        rcases hab with h1 | ⟨h1, h2⟩
        · rcases hbc with h3 | ⟨h3, _⟩
          · left; omega
          · left; omega
        · rcases hbc with h3 | ⟨h3, h4⟩
          · left; omega
          · right; exact ⟨by omega, ih ys zs h2 h4⟩

theorem bytesLt_total (a b : Bytes) (h1 : bytesLt a b = false) (h2 : a ≠ b) :
    bytesLt b a = true := by
  induction a generalizing b with
  | nil =>
    cases b with
    | nil => exact absurd rfl h2
    | cons y ys => simp [bytesLt] at h1
  | cons x xs ih =>
    cases b with
    | nil => simp [bytesLt]
    | cons y ys =>
      simp only [bytesLt, Bool.or_eq_false_iff, Bool.and_eq_false_imp, decide_eq_false_iff_not,
        decide_eq_true_eq, Bool.or_eq_true, Bool.and_eq_true] at h1 ⊢
      by_cases hxy : x = y
      · subst hxy
        right
        refine ⟨rfl, ih ys (h1.2 rfl) ?_⟩
        intro e
        exact h2 (by rw [e])
      · left; omega

theorem bytesLe_refl (a : Bytes) : bytesLe a a = true := by
  simp [bytesLe, bytesLt_irrefl]

/-- Twenty zero bytes after a prefix are the least continuation of that length. -/
theorem bytesLe_append_zeros (h p : Bytes) (n : Nat) (hp : p.length = n) :
    bytesLe (h ++ List.replicate n 0) (h ++ p) = true := by
  induction h with
  | nil =>
    simp only [List.nil_append]
    induction p generalizing n with
    | nil => subst hp; simp [bytesLe, bytesLt]
    | cons x xs ih =>
      subst hp
      have := ih xs.length rfl
      simp only [bytesLe, Bool.not_eq_true', List.length_cons, List.replicate_succ, bytesLt,
        Bool.or_eq_false_iff, decide_eq_false_iff_not, Bool.and_eq_false_imp,
        decide_eq_true_eq] at this ⊢
      exact ⟨by omega, fun _ => this⟩
  | cons x xs ih =>
    simp only [bytesLe, Bool.not_eq_true', List.cons_append, bytesLt, Bool.or_eq_false_iff,
      decide_eq_false_iff_not, Bool.and_eq_false_imp, decide_eq_true_eq] at ih ⊢
    exact ⟨by omega, fun _ => ih⟩

/-! ## Basic facts: the store -/

theorem lookup_insert_self (db : Store) (k v : Bytes) : (Store.insert k v db).lookup k = some v := by
  induction db with
  | nil => simp [Store.insert, Store.lookup]
  | cons e rest ih =>
    obtain ⟨k1, v1⟩ := e
    unfold Store.insert
    split_ifs with h1 h2
    · simp [Store.lookup]
    · simp [Store.lookup]
    · have hne : (k1 == k) = false := by
        simp only [beq_eq_false_iff_ne, ne_eq]
        exact fun e => h2 e.symm
      unfold Store.lookup at ih ⊢
      rw [List.find?_cons]
      simp only [hne]
      exact ih

theorem lookup_erase_self (db : Store) (k : Bytes) : (db.erase k).lookup k = none := by
  unfold Store.lookup Store.erase
  have : (List.filter (fun e => e.1 != k) db).find? (fun e => e.1 == k) = none := by
    rw [List.find?_eq_none]
    intro x hx
    simp only [List.mem_filter, bne_iff_ne, ne_eq] at hx
    simp [hx.2]
  rw [this]

theorem mem_erase_iff (db : Store) (k : Bytes) (e : Bytes × Bytes) :
    e ∈ db.erase k ↔ e ∈ db ∧ e.1 ≠ k := by
  simp [Store.erase]

theorem mem_insert (db : Store) (k v : Bytes) (e : Bytes × Bytes)
    (h : e ∈ Store.insert k v db) : e = (k, v) ∨ e ∈ db := by
  induction db with
  | nil => simp [Store.insert] at h; exact Or.inl h
  | cons e1 rest ih =>
    obtain ⟨k1, v1⟩ := e1
    unfold Store.insert at h
    split_ifs at h with h1 h2
    · simp only [List.mem_cons] at h ⊢
      tauto
    · simp only [List.mem_cons] at h ⊢
      tauto
    · simp only [List.mem_cons] at h ⊢
      rcases h with h | h
      · tauto
      · rcases ih h with h3 | h3 <;> tauto

theorem mem_insert_of_ne (db : Store) (k v : Bytes) (e : Bytes × Bytes)
    (h : e ∈ db) (hk : e.1 ≠ k) : e ∈ Store.insert k v db := by
  induction db with
  | nil => simp at h
  | cons e1 rest ih =>
    obtain ⟨k1, v1⟩ := e1
    unfold Store.insert
    split_ifs with h1 h2
    · exact List.mem_cons_of_mem _ h
    · subst h2
      simp only [List.mem_cons] at h ⊢
      rcases h with h | h
      · subst h; exact absurd rfl hk
      · exact Or.inr h
    · simp only [List.mem_cons] at h ⊢
      rcases h with h | h
      · exact Or.inl h
      · exact Or.inr (ih h)

theorem lookup_none_of_absent (db : Store) (k : Bytes) (h : ∀ e ∈ db, e.1 ≠ k) :
    db.lookup k = none := by
  unfold Store.lookup
  have : db.find? (fun e => e.1 == k) = none := by
    rw [List.find?_eq_none]
    intro x hx
    simp [h x hx]
  rw [this]

theorem window_subset (db : Store) (start : Bytes) (n : Nat) (e : Bytes × Bytes)
    (h : e ∈ db.window start n) : e ∈ db ∧ bytesLe start e.1 = true := by
  unfold Store.window at h
  have h1 := List.mem_of_mem_take h
  simpa [List.mem_filter] using h1

theorem window_length (db : Store) (start : Bytes) (n : Nat) : (db.window start n).length ≤ n := by
  unfold Store.window
  simp [List.length_take]

theorem window_sorted (db : Store) (start : Bytes) (n : Nat) (h : db.Sorted) :
    (db.window start n).Sorted := by
  unfold Store.window Store.Sorted at *
  exact List.Pairwise.sublist ((List.take_sublist _ _).trans (List.filter_sublist _)) h

theorem erase_sorted (db : Store) (k : Bytes) (h : db.Sorted) : (db.erase k).Sorted := by
  unfold Store.erase Store.Sorted at *
  exact List.Pairwise.sublist (List.filter_sublist _) h

theorem insert_sorted (db : Store) (k v : Bytes) (h : db.Sorted) :
    (Store.insert k v db).Sorted := by
  induction db with
  | nil => simp [Store.insert, Store.Sorted]
  | cons e rest ih =>
    obtain ⟨k1, v1⟩ := e
    unfold Store.Sorted at h ih ⊢
    rw [List.pairwise_cons] at h
    unfold Store.insert
    split_ifs with h1 h2
    · rw [List.pairwise_cons]
      refine ⟨?_, List.pairwise_cons.mpr h⟩
      intro x hx
      rcases List.mem_cons.mp hx with hx | hx
      · subst hx; exact h1
      · exact bytesLt_trans _ _ _ h1 (h.1 x hx)
    · subst h2
      rw [List.pairwise_cons]
      exact ⟨h.1, h.2⟩
    · rw [List.pairwise_cons]
      refine ⟨?_, ih h.2⟩
      intro x hx
      rcases mem_insert rest k v x hx with hx | hx
      · subst hx
        exact bytesLt_total k k1 (by simpa using h1) h2
      · exact h.1 x hx

/-! ## Basic facts: the scan -/

theorem listed_cons (L : Lib) (now : Int) (e : Bytes × Bytes) (es : List (Bytes × Bytes)) :
    listed L now (e :: es) =
      match fresh L now e.2 with
      | some a => (e.1, a) :: listed L now es
      | none => listed L now es := by
  unfold listed
  rw [List.filterMap_cons]
  cases fresh L now e.2 <;> rfl

theorem listed_length_le (L : Lib) (now : Int) (es : List (Bytes × Bytes)) :
    (listed L now es).length ≤ es.length := by
  unfold listed
  exact List.length_filterMap_le _ _

/-- Every record kept by the scan was read from a visited entry whose value
deserializes without error to it, and it is at most 24 hours old. -/
theorem listed_source (L : Lib) (now : Int) (es : List (Bytes × Bytes))
    (ka : Bytes × AnnounceReqWithTime) (h : ka ∈ listed L now es) :
    ∃ v, (ka.1, v) ∈ es ∧ L.jsonUnmarshal v = (none, ka.2) ∧
      now - ka.2.UpdatedAt ≤ 86400000000000 := by
  unfold listed at h
  rw [List.mem_filterMap] at h
  obtain ⟨e, he, hf⟩ := h
  refine ⟨e.2, ?_⟩
  unfold fresh at hf
  rcases hu : L.jsonUnmarshal e.2 with ⟨err, a⟩
  rw [hu] at hf
  cases err with
  | some msg => simp at hf
  | none =>
    simp only at hf
    split_ifs at hf with hx
    simp only [Option.some.injEq] at hf
    subst hf
    refine ⟨he, rfl, ?_⟩
    have := (expired_iff now a.UpdatedAt).not.mp hx
    simp only
    omega

/-- One call of the scan callback: it keeps the response as it is, or adds the
record the value holds; it never stops the scan and never fails. -/
theorem walker_eq (L : Lib) (now : Int) (resp : HttpResponse) (k v : Bytes) :
    walker L now resp k v =
      (match fresh L now v with
       | some a => addPeer L resp a
       | none => resp, true, none) := by
  unfold walker fresh
  rcases hu : L.jsonUnmarshal v with ⟨err, a⟩
  cases err with
  | some msg => rfl
  | none =>
    simp only
    by_cases hx : timeSub now a.UpdatedAt > 24 * Hour
    · simp only [hx, if_true]
    · simp only [hx, if_false]
      unfold addPeer
      by_cases hl : a.Left = 0 <;> simp [hl]

theorem walkLoop_cons {σ : Type} (w : σ → Bytes → Bytes → σ × Bool × Option String)
    (e : Bytes × Bytes) (rest : List (Bytes × Bytes)) (s s1 : σ)
    (h : w s e.1 e.2 = (s1, true, none)) :
    walkLoop w (e :: rest) s = walkLoop w rest s1 := by
  obtain ⟨k, v⟩ := e
  simp only at h
  simp [walkLoop, h]

/-- The scan callback run over a list of entries: it never stops or fails, bumps
the counters once per kept record and appends one descriptor per kept record. -/
theorem walkLoop_walker (L : Lib) (now : Int) (es : List (Bytes × Bytes)) (resp : HttpResponse) :
    walkLoop (walker L now) es resp =
      ({ resp with
          Complete := bump resp.Complete
            ((listed L now es).countP (fun ka => decide (ka.2.Left = 0))),
          Incomplete := bump resp.Incomplete
            ((listed L now es).countP (fun ka => !decide (ka.2.Left = 0))),
          Peers := resp.Peers ++ (listed L now es).map (fun ka => peerOf L ka.2) }, none) := by
  induction es generalizing resp with
  | nil => simp [walkLoop, listed, bump]
  | cons e rest ih =>
    rw [walkLoop_cons _ e rest resp _ (walker_eq L now resp e.1 e.2), listed_cons, ih]
    cases hf : fresh L now e.2 with
    | none => rfl
    | some a =>
      by_cases hl : a.Left = 0
      · simp [addPeer, hl, bump_succ_left, peerOf]
      · simp [addPeer, hl, bump_succ_left, peerOf]

/-! ## Basic facts: the handler -/

theorem res_WriteResp (x : HttpResponse) (c : Bool) : (WriteResp x c).res = x := by
  unfold WriteResp
  cases c <;> rfl

theorem visited_length (db : Store) (req : AnnounceReq) : (visited db req).length ≤ 160 := by
  unfold visited
  exact window_length db _ _

theorem swarmOf_length (L : Lib) (now : Int) (db : Store) (req : AnnounceReq) :
    (swarmOf L now db req).length ≤ 160 := by
  unfold swarmOf
  exact (listed_length_le L now _).trans (visited_length db req)

theorem enumerate_ok (L : Lib) (F : Faults) (now : Int) (req : AnnounceReq) (db : Store)
    (ops : List DBOp) (hw : F .walk = none) :
    enumerate L F now req db ops =
      ⟨WriteResp (successResp L (swarmOf L now db req)) req.Compact, db,
        ops ++ [.walk (startKey req) 160]⟩ := by
  have hlen := swarmOf_length L now db req
  have h1 := List.countP_le_length (fun ka : Bytes × AnnounceReqWithTime => decide (ka.2.Left = 0))
    (l := swarmOf L now db req)
  have h2 := List.countP_le_length (fun ka : Bytes × AnnounceReqWithTime => !decide (ka.2.Left = 0))
    (l := swarmOf L now db req)
  unfold enumerate Walk
  simp only [hw]
  rw [walkLoop_walker]
  simp only [List.nil_append]
  unfold swarmOf visited at h1 h2 hlen
  rw [bump_zero_eq _ (by omega), bump_zero_eq _ (by omega)]
  rfl

theorem enumerate_err (L : Lib) (F : Faults) (now : Int) (req : AnnounceReq) (db : Store)
    (ops : List DBOp) (msg : String) (hw : F .walk = some msg) :
    enumerate L F now req db ops =
      ⟨WriteResp (failure msg) req.Compact, db, ops ++ [.walk (startKey req) 160]⟩ := by
  unfold enumerate Walk
  simp only [hw]

theorem enumerate_db (L : Lib) (F : Faults) (now : Int) (req : AnnounceReq) (db : Store)
    (ops : List DBOp) : (enumerate L F now req db ops).db = db := by
  cases hw : F .walk with
  | none => rw [enumerate_ok _ _ _ _ _ _ hw]
  | some msg => rw [enumerate_err _ _ _ _ _ _ msg hw]

theorem enumerate_ops (L : Lib) (F : Faults) (now : Int) (req : AnnounceReq) (db : Store)
    (ops : List DBOp) :
    (enumerate L F now req db ops).ops = ops ++ [.walk (startKey req) 160] := by
  cases hw : F .walk with
  | none => rw [enumerate_ok _ _ _ _ _ _ hw]
  | some msg => rw [enumerate_err _ _ _ _ _ _ msg hw]

/-- The response of the enumeration is a failure or is built from the swarm. -/
theorem enumerate_resp (L : Lib) (F : Faults) (now : Int) (req : AnnounceReq) (db : Store)
    (ops : List DBOp) :
    (∃ msg, (enumerate L F now req db ops).body.res = failure msg) ∨
      (enumerate L F now req db ops).body.res = successResp L (swarmOf L now db req) := by
  cases hw : F .walk with
  | none => right; rw [enumerate_ok _ _ _ _ _ _ hw, res_WriteResp]
  | some msg => left; exact ⟨msg, by rw [enumerate_err _ _ _ _ _ _ msg hw, res_WriteResp]⟩

/-- A `stopped` announce whose delete succeeds erases the key and enumerates. -/
theorem ServeHTTP_stopped (L : Lib) (F : Faults) (db : Store) (now : Int) (r : HttpRequest)
    (req : AnnounceReq) (b : Bytes) (hp : ParseRequest L r = (req, none))
    (hv : ValidateReq req = none)
    (hm : L.jsonMarshal { toAnnounceReq := req, UpdatedAt := now } = .ok b)
    (he : req.Event = ascii "stopped") (hd : F .delete = none) :
    ServeHTTP L F db now r =
      enumerate L F now req (db.erase (req.InfoHash ++ req.PeerID))
        [.delete (req.InfoHash ++ req.PeerID)] := by
  unfold ServeHTTP
  simp only [hp, hv, hm, he, if_true, Delete, hd]

/-- A non-stop announce ended by the check of the prior record. -/
theorem ServeHTTP_checked (L : Lib) (F : Faults) (db : Store) (now : Int) (r : HttpRequest)
    (req : AnnounceReq) (b : Bytes) (reason : String) (hp : ParseRequest L r = (req, none))
    (hv : ValidateReq req = none)
    (hm : L.jsonMarshal { toAnnounceReq := req, UpdatedAt := now } = .ok b)
    (he : req.Event ≠ ascii "stopped")
    (hc : checkPrev L F now db (req.InfoHash ++ req.PeerID) = some reason) :
    ServeHTTP L F db now r =
      ⟨WriteResp (failure reason) req.Compact, db, [.get (req.InfoHash ++ req.PeerID)]⟩ := by
  unfold ServeHTTP
  simp only [hp, hv, hm, he, if_false, hc]

/-- A non-stop announce that passes the check and whose put succeeds. -/
theorem ServeHTTP_put (L : Lib) (F : Faults) (db : Store) (now : Int) (r : HttpRequest)
    (req : AnnounceReq) (b : Bytes) (hp : ParseRequest L r = (req, none))
    (hv : ValidateReq req = none)
    (hm : L.jsonMarshal { toAnnounceReq := req, UpdatedAt := now } = .ok b)
    (he : req.Event ≠ ascii "stopped")
    (hc : checkPrev L F now db (req.InfoHash ++ req.PeerID) = none) (hput : F .put = none) :
    ServeHTTP L F db now r =
      enumerate L F now req (Store.insert (req.InfoHash ++ req.PeerID) b db)
        [.get (req.InfoHash ++ req.PeerID), .put (req.InfoHash ++ req.PeerID) b] := by
  unfold ServeHTTP
  simp only [hp, hv, hm, he, if_false, hc, Put, hput]

/-- The store after any call: untouched, or the request's own key erased, or
the request's own key bound to the serialized record. -/
theorem ServeHTTP_db (L : Lib) (F : Faults) (db : Store) (now : Int) (r : HttpRequest) :
    (ServeHTTP L F db now r).db = db ∨
    ((ParseRequest L r).2 = none ∧ ValidateReq (ParseRequest L r).1 = none ∧
      ((ServeHTTP L F db now r).db =
          db.erase ((ParseRequest L r).1.InfoHash ++ (ParseRequest L r).1.PeerID) ∨
        ∃ b, (ServeHTTP L F db now r).db =
          Store.insert ((ParseRequest L r).1.InfoHash ++ (ParseRequest L r).1.PeerID) b db)) := by
  rcases hp : ParseRequest L r with ⟨req, err⟩
  cases err with
  | some e => left; unfold ServeHTTP; simp only [hp]
  | none =>
    cases hv : ValidateReq req with
    | some e => left; unfold ServeHTTP; simp only [hp, hv]
    | none =>
      cases hm : L.jsonMarshal { toAnnounceReq := req, UpdatedAt := now } with
      | error e => left; unfold ServeHTTP; simp only [hp, hv, hm]
      | ok b =>
        by_cases he : req.Event = ascii "stopped"
        · cases hd : F .delete with
          | none =>
            right
            rw [ServeHTTP_stopped L F db now r req b hp hv hm he hd, enumerate_db]
            exact ⟨rfl, rfl, Or.inl rfl⟩
          | some msg =>
            left
            unfold ServeHTTP
            simp only [hp, hv, hm, he, if_true, Delete, hd]
        · cases hc : checkPrev L F now db (req.InfoHash ++ req.PeerID) with
          | some reason => left; rw [ServeHTTP_checked L F db now r req b reason hp hv hm he hc]
          | none =>
            cases hput : F .put with
            | none =>
              right
              rw [ServeHTTP_put L F db now r req b hp hv hm he hc hput, enumerate_db]
              exact ⟨rfl, rfl, Or.inr ⟨b, rfl⟩⟩
            | some msg =>
              left
              unfold ServeHTTP
              simp only [hp, hv, hm, he, if_false, hc, Put, hput]

/-- The response of any call is a failure or is built from the swarm of the
request in the store the call leaves behind. -/
theorem ServeHTTP_resp (L : Lib) (F : Faults) (db : Store) (now : Int) (r : HttpRequest) :
    (∃ msg, (ServeHTTP L F db now r).body.res = failure msg) ∨
      (ServeHTTP L F db now r).body.res =
        successResp L (swarmOf L now (ServeHTTP L F db now r).db (ParseRequest L r).1) := by
  rcases hp : ParseRequest L r with ⟨req, err⟩
  cases err with
  | some e => left; unfold ServeHTTP; simp only [hp]; exact ⟨_, res_WriteResp _ _⟩
  | none =>
    cases hv : ValidateReq req with
    | some e => left; unfold ServeHTTP; simp only [hp, hv]; exact ⟨_, res_WriteResp _ _⟩
    | none =>
      cases hm : L.jsonMarshal { toAnnounceReq := req, UpdatedAt := now } with
      | error e => left; unfold ServeHTTP; simp only [hp, hv, hm]; exact ⟨_, res_WriteResp _ _⟩
      | ok b =>
        by_cases he : req.Event = ascii "stopped"
        · cases hd : F .delete with
          | none =>
            rw [ServeHTTP_stopped L F db now r req b hp hv hm he hd, enumerate_db]
            exact enumerate_resp _ _ _ _ _ _
          | some msg =>
            left
            unfold ServeHTTP
            simp only [hp, hv, hm, he, if_true, Delete, hd]
            exact ⟨_, res_WriteResp _ _⟩
        · cases hc : checkPrev L F now db (req.InfoHash ++ req.PeerID) with
          | some reason =>
            left
            rw [ServeHTTP_checked L F db now r req b reason hp hv hm he hc]
            exact ⟨_, res_WriteResp _ _⟩
          | none =>
            cases hput : F .put with
            | none =>
              rw [ServeHTTP_put L F db now r req b hp hv hm he hc hput, enumerate_db]
              exact enumerate_resp _ _ _ _ _ _
            | some msg =>
              left
              unfold ServeHTTP
              simp only [hp, hv, hm, he, if_false, hc, Put, hput]
              exact ⟨_, res_WriteResp _ _⟩

/-! ## Update throttling -/

theorem wrote_get_only (db : Store) (body : Body) (k key : Bytes) :
    Result.wrote ⟨body, db, [.get k]⟩ key = false := by
  simp [Result.wrote]

theorem checkPrev_early (L : Lib) (now u : Int) (db : Store) (key b : Bytes)
    (hl : db.lookup key = some b) (hne : b ≠ []) (hu : (L.jsonUnmarshal b).2.UpdatedAt = u)
    (hclose : now - u < 60000000000) :
    checkPrev L noFaults now db key = some "too early to update" := by
  have hlen : b.length > 0 := List.length_pos.mpr hne
  have ht : timeSub now u < Second * DefaultInterval := (tooEarly_iff now u).mpr hclose
  unfold checkPrev Get
  simp only [noFaults, hl, hlen, if_true, hu, ht]

/-- C1: two well-formed announces with an event other than "stopped" from the
same peer, served one after the other less than 60 seconds apart by a working
store, the first of which writes the peer's record: the second is answered with
the failure reason "too early to update", and the value stored under
info_hash ++ peer_id after both calls is the one the first call wrote. -/
theorem second_announce_too_early (L : Lib) (db : Store) (t1 t2 : Int) (r1 r2 : HttpRequest)
    (req1 req2 : AnnounceReq) (b1 b2 : Bytes)
    (hp1 : ParseRequest L r1 = (req1, none)) (hp2 : ParseRequest L r2 = (req2, none))
    (hv1 : ValidateReq req1 = none) (hv2 : ValidateReq req2 = none)
    (he1 : req1.Event ≠ ascii "stopped") (he2 : req2.Event ≠ ascii "stopped")
    (hih : req2.InfoHash = req1.InfoHash) (hpid : req2.PeerID = req1.PeerID)
    (hclose : t2 - t1 < 60 * Second)
    (hm1 : L.jsonMarshal { toAnnounceReq := req1, UpdatedAt := t1 } = .ok b1)
    (hm2 : L.jsonMarshal { toAnnounceReq := req2, UpdatedAt := t2 } = .ok b2)
    (hne : b1 ≠ []) (hrt : (L.jsonUnmarshal b1).2.UpdatedAt = t1)
    (hwrite : (ServeHTTP L noFaults db t1 r1).wrote (req1.InfoHash ++ req1.PeerID) = true) :
    (ServeHTTP L noFaults db t1 r1).db.lookup (req1.InfoHash ++ req1.PeerID) = some b1 ∧
    (ServeHTTP L noFaults (ServeHTTP L noFaults db t1 r1).db t2 r2).body.res.FailureReason
      = "too early to update" ∧
    (ServeHTTP L noFaults (ServeHTTP L noFaults db t1 r1).db t2 r2).db.lookup
      (req1.InfoHash ++ req1.PeerID) = some b1 := by
  have hfirst : (ServeHTTP L noFaults db t1 r1).db.lookup (req1.InfoHash ++ req1.PeerID)
      = some b1 := by
    cases hc : checkPrev L noFaults t1 db (req1.InfoHash ++ req1.PeerID) with
    | some reason =>
      rw [ServeHTTP_checked L noFaults db t1 r1 req1 b1 reason hp1 hv1 hm1 he1 hc,
        wrote_get_only] at hwrite
      exact absurd hwrite (by simp)
    | none =>
      rw [ServeHTTP_put L noFaults db t1 r1 req1 b1 hp1 hv1 hm1 he1 hc rfl, enumerate_db]
      exact lookup_insert_self db _ b1
  have hsec : checkPrev L noFaults t2 (ServeHTTP L noFaults db t1 r1).db
      (req2.InfoHash ++ req2.PeerID) = some "too early to update" := by
    rw [hih, hpid]
    refine checkPrev_early L t2 t1 _ _ b1 hfirst hne hrt ?_
    simp only [Second] at hclose
    omega
  rw [ServeHTTP_checked L noFaults _ t2 r2 req2 b2 _ hp2 hv2 hm2 he2 hsec]
  exact ⟨hfirst, by rw [res_WriteResp]; rfl, hfirst⟩

theorem second_announce_too_early_witness :
    (ServeHTTP refLib noFaults [] 0 (mkRequest hashA peerA "7" "started")).db.lookup
      (hashA ++ peerA) = some (refMarshal ⟨parsedA "7" "started", 0⟩) ∧
    (ServeHTTP refLib noFaults
        (ServeHTTP refLib noFaults [] 0 (mkRequest hashA peerA "7" "started")).db 30000000000
        (mkRequest hashA peerA "0" "completed")).body.res.FailureReason
      = "too early to update" ∧
    (ServeHTTP refLib noFaults
        (ServeHTTP refLib noFaults [] 0 (mkRequest hashA peerA "7" "started")).db 30000000000
        (mkRequest hashA peerA "0" "completed")).db.lookup (hashA ++ peerA)
      = some (refMarshal ⟨parsedA "7" "started", 0⟩) :=
  second_announce_too_early refLib [] 0 30000000000
    (mkRequest hashA peerA "7" "started") (mkRequest hashA peerA "0" "completed")
    (parsedA "7" "started") (parsedA "0" "completed")
    (refMarshal ⟨parsedA "7" "started", 0⟩) (refMarshal ⟨parsedA "0" "completed", 30000000000⟩)
    (by decide) (by decide) (by decide) (by decide) (by decide) (by decide) (by decide)
    (by decide) (by decide) rfl rfl (by decide) (by decide) (by decide)

theorem wrote_enumerate (L : Lib) (F : Faults) (now : Int) (req : AnnounceReq) (db : Store)
    (key b : Bytes) :
    (enumerate L F now req db [.get key, .put key b]).wrote key = true := by
  unfold Result.wrote
  rw [enumerate_ops]
  simp

theorem checkPrev_none_spaced (L : Lib) (now w : Int) (db : Store) (key : Bytes)
    (hg : stampedAt L db key w) (hc : checkPrev L noFaults now db key = none) :
    w + 60000000000 ≤ now := by
  obtain ⟨b, hl, hne, hu⟩ := hg
  by_contra hcon
  have := checkPrev_early L now w db key b hl hne hu (by omega)
  rw [this] at hc
  exact absurd hc (by simp)

theorem decInt_encInt (x : Int) : decInt (if x < 0 then 1 else 0) x.natAbs = x := by
  unfold decInt
  by_cases h : x < 0
  · simp only [h, if_true, one_ne_zero, if_false]
    omega
  · simp only [h, if_false, if_true]
    omega

/-- The reference codec reads back what it wrote. -/
theorem refUnmarshal_refMarshal (r : AnnounceReqWithTime) :
    refUnmarshal (refMarshal r) = (none, r) := by
  obtain ⟨⟨ih, pid, ra, port, ev, up, down, sc, left, cp⟩, t⟩ := r
  simp only [refMarshal, encInt, List.cons_append, List.nil_append, List.append_assoc,
    refUnmarshal, List.drop_left, List.take_left, decInt_encInt]
  cases sc <;> cases cp <;> simp

theorem refLib_keeps_time (r : AnnounceReqWithTime) (b : Bytes)
    (h : refLib.jsonMarshal r = .ok b) :
    b ≠ [] ∧ (refLib.jsonUnmarshal b).2.UpdatedAt = r.UpdatedAt := by
  simp only [refLib, Except.ok.injEq] at h
  subst h
  constructor
  · simp [refMarshal, encInt]
  · simp only [refLib, refUnmarshal_refMarshal]

/-- C2 as stated fails: a peer that announces started, then stopped 10 seconds
later, then started 20 seconds after the first announce has its record written
twice within 60 seconds, because the stop deleted the record the throttle reads. -/
theorem stopped_resets_throttle :
    (∀ x ∈ runStopped, fromPeer refLib hashA peerA x.2) ∧
    (runStopped.map Prod.fst).Pairwise (fun a b => a ≤ b) ∧
    writeTimes refLib noFaults (hashA ++ peerA) [] runStopped = [0, 20000000000] ∧
    ¬ (writeTimes refLib noFaults (hashA ++ peerA) [] runStopped).Pairwise
        (fun a b => a + 60 * Second ≤ b) := by
  refine ⟨by decide, by decide, by decide, ?_⟩
  have h : writeTimes refLib noFaults (hashA ++ peerA) [] runStopped = [0, 20000000000] := by
    decide
  rw [h]
  simp [Second]

/-! ## Stopped announces -/

theorem ValidateReq_none_iff (req : AnnounceReq) :
    ValidateReq req = none ↔ req.InfoHash.length = 20 ∧ req.PeerID.length = 20 := by
  unfold ValidateReq
  split_ifs with h1 h2 <;> simp_all

theorem swarmOf_in_store (L : Lib) (now : Int) (db : Store) (req : AnnounceReq)
    (ka : Bytes × AnnounceReqWithTime) (h : ka ∈ swarmOf L now db req) :
    ∃ v, (ka.1, v) ∈ db ∧ bytesLe (startKey req) ka.1 = true ∧
      L.jsonUnmarshal v = (none, ka.2) ∧ now - ka.2.UpdatedAt ≤ 86400000000000 := by
  obtain ⟨v, hv, hu, ht⟩ := listed_source L now _ ka h
  have := window_subset db _ _ _ hv
  exact ⟨v, this.1, this.2, hu, ht⟩

theorem swarmOf_avoids (L : Lib) (now : Int) (db : Store) (req : AnnounceReq) (key : Bytes)
    (h : ∀ e ∈ db, e.1 ≠ key) : ∀ ka ∈ swarmOf L now db req, ka.1 ≠ key := by
  intro ka hka
  obtain ⟨v, hv, _⟩ := swarmOf_in_store L now db req ka hka
  exact h _ hv

theorem peers_of_resp (L : Lib) (F : Faults) (db : Store) (now : Int) (r : HttpRequest) :
    (ServeHTTP L F db now r).body.res.Peers = [] ∨
    (ServeHTTP L F db now r).body.res.Peers =
      (swarmOf L now (ServeHTTP L F db now r).db (ParseRequest L r).1).map
        (fun ka => peerOf L ka.2) := by
  rcases ServeHTTP_resp L F db now r with ⟨msg, h⟩ | h
  · left; rw [h]; rfl
  · right; rw [h]; rfl

/-- A call that is not an announce of the peer `(H, P)` does not create a record
under `H ++ P`. -/
theorem absent_preserved (L : Lib) (F : Faults) (db : Store) (t : Int) (r : HttpRequest)
    (H P : Bytes) (hH : H.length = 20) (habs : ∀ e ∈ db, e.1 ≠ H ++ P)
    (hnot : ¬ fromPeer L H P r) : ∀ e ∈ (ServeHTTP L F db t r).db, e.1 ≠ H ++ P := by
  intro e he
  rcases ServeHTTP_db L F db t r with h | ⟨hp, hv, h | ⟨b, h⟩⟩
  · rw [h] at he; exact habs e he
  · rw [h] at he
    exact habs e ((mem_erase_iff _ _ _).mp he).1
  · rw [h] at he
    rcases mem_insert _ _ _ _ he with h1 | h1
    · subst h1
      intro hkey
      apply hnot
      have hlen := (ValidateReq_none_iff _).mp hv
      have := List.append_inj hkey (by rw [hlen.1, hH])
      exact ⟨hp, hv, this.1, this.2⟩
    · exact habs e h1

theorem absent_storeAfter (L : Lib) (F : Faults) (H P : Bytes) (hH : H.length = 20)
    (later : List (Int × HttpRequest)) (hnot : ∀ x ∈ later, ¬ fromPeer L H P x.2)
    (db : Store) (habs : ∀ e ∈ db, e.1 ≠ H ++ P) :
    ∀ e ∈ storeAfter L F db later, e.1 ≠ H ++ P := by
  induction later generalizing db with
  | nil => exact habs
  | cons x rest ih =>
    obtain ⟨t, r⟩ := x
    unfold storeAfter
    exact ih (fun x hx => hnot x (List.mem_cons_of_mem _ hx)) _
      (absent_preserved L F db t r H P hH habs (hnot (t, r) (List.mem_cons_self _ _)))

/-- C3: after a valid announce with event "stopped" served by a store whose
delete succeeds, the store holds no record under info_hash ++ peer_id, whether
or not one existed before; the peer list of the response to that announce is
empty or built from the scanned records, none of which has that key; and the
same holds for the response to every later request served before that peer
announces again. -/
theorem stopped_removes_peer (L : Lib) (F F2 : Faults) (db : Store) (now : Int)
    (r : HttpRequest) (req : AnnounceReq) (b : Bytes)
    (hp : ParseRequest L r = (req, none)) (hv : ValidateReq req = none)
    (hm : L.jsonMarshal { toAnnounceReq := req, UpdatedAt := now } = .ok b)
    (he : req.Event = ascii "stopped") (hd : F .delete = none) :
    (ServeHTTP L F db now r).db.lookup (req.InfoHash ++ req.PeerID) = none ∧
    (∀ e ∈ (ServeHTTP L F db now r).db, e.1 ≠ req.InfoHash ++ req.PeerID) ∧
    ((ServeHTTP L F db now r).body.res.Peers = [] ∨
      (ServeHTTP L F db now r).body.res.Peers =
        (swarmOf L now (ServeHTTP L F db now r).db req).map (fun ka => peerOf L ka.2)) ∧
    (∀ ka ∈ swarmOf L now (ServeHTTP L F db now r).db req,
      ka.1 ≠ req.InfoHash ++ req.PeerID) ∧
    ∀ (later : List (Int × HttpRequest)) (t3 : Int) (r3 : HttpRequest),
      (∀ x ∈ later, ¬ fromPeer L req.InfoHash req.PeerID x.2) →
      ¬ fromPeer L req.InfoHash req.PeerID r3 →
      (∀ e ∈ (ServeHTTP L F2 (storeAfter L F2 (ServeHTTP L F db now r).db later) t3 r3).db,
        e.1 ≠ req.InfoHash ++ req.PeerID) ∧
      ((ServeHTTP L F2 (storeAfter L F2 (ServeHTTP L F db now r).db later) t3 r3).body.res.Peers
          = [] ∨
        (ServeHTTP L F2 (storeAfter L F2 (ServeHTTP L F db now r).db later) t3 r3).body.res.Peers
          = (swarmOf L t3
              (ServeHTTP L F2 (storeAfter L F2 (ServeHTTP L F db now r).db later) t3 r3).db
              (ParseRequest L r3).1).map (fun ka => peerOf L ka.2)) ∧
      ∀ ka ∈ swarmOf L t3
          (ServeHTTP L F2 (storeAfter L F2 (ServeHTTP L F db now r).db later) t3 r3).db
          (ParseRequest L r3).1,
        ka.1 ≠ req.InfoHash ++ req.PeerID := by
  have hlen := (ValidateReq_none_iff req).mp hv
  have habs : ∀ e ∈ (ServeHTTP L F db now r).db, e.1 ≠ req.InfoHash ++ req.PeerID := by
    rw [ServeHTTP_stopped L F db now r req b hp hv hm he hd, enumerate_db]
    intro e he2
    exact ((mem_erase_iff _ _ _).mp he2).2
  have hpeers := peers_of_resp L F db now r
  rw [hp] at hpeers
  refine ⟨lookup_none_of_absent _ _ habs, habs, hpeers, swarmOf_avoids L now _ req _ habs, ?_⟩
  intro later t3 r3 hlater hr3
  have h3 := absent_preserved L F2 _ t3 r3 req.InfoHash req.PeerID hlen.1
    (absent_storeAfter L F2 req.InfoHash req.PeerID hlen.1 later hlater _ habs) hr3
  exact ⟨h3, peers_of_resp L F2 _ t3 r3, swarmOf_avoids L t3 _ _ _ h3⟩

theorem stopped_removes_peer_witness :
    (storeA.lookup (hashA ++ peerA)).isSome = true ∧
    (ServeHTTP refLib noFaults storeA 1000 (mkRequest hashA peerA "7" "stopped")).db.lookup
      (hashA ++ peerA) = none :=
  ⟨by decide,
    (stopped_removes_peer refLib noFaults noFaults storeA 1000
      (mkRequest hashA peerA "7" "stopped") (parsedA "7" "stopped")
      (refMarshal ⟨parsedA "7" "stopped", 1000⟩)
      (by decide) (by decide) rfl (by decide) rfl).1⟩

/-! ## Expiry and counts -/

/-- C4 as stated fails: a record older than 24 hours stored under the request's
own key does not stay in the store; the announce overwrites it. -/
theorem expired_own_record_replaced :
    (hashA ++ peerA, refMarshal ⟨parsedA "7" "started", 0⟩) ∈ storeA ∧
    refLib.jsonUnmarshal (refMarshal ⟨parsedA "7" "started", 0⟩)
      = (none, ⟨parsedA "7" "started", 0⟩) ∧
    twoDays - 0 > 24 * Hour ∧
    fromPeer refLib hashA peerA (mkRequest hashA peerA "7" "started") ∧
    (hashA ++ peerA, refMarshal ⟨parsedA "7" "started", 0⟩) ∉
      (ServeHTTP refLib noFaults storeA twoDays (mkRequest hashA peerA "7" "started")).db := by
  refine ⟨by decide, by decide, by decide, by decide, by decide⟩

/-- C4, amended: for every store state, time and request, the response is a
failure without peers and counts, or its peer list and both counts are built
from the swarm; every record of the swarm was read from a stored value that
deserializes to it and is at most 24 hours old, so a record older than that is
neither listed nor counted; and every record stored under a key other than the
request's own info_hash ++ peer_id stays in the store. -/
theorem expired_not_listed_and_kept (L : Lib) (F : Faults) (db : Store) (now : Int)
    (r : HttpRequest) :
    (((ServeHTTP L F db now r).body.res.Peers = [] ∧
        (ServeHTTP L F db now r).body.res.Complete = 0 ∧
        (ServeHTTP L F db now r).body.res.Incomplete = 0) ∨
      (ServeHTTP L F db now r).body.res =
        successResp L (swarmOf L now (ServeHTTP L F db now r).db (ParseRequest L r).1)) ∧
    (∀ ka ∈ swarmOf L now (ServeHTTP L F db now r).db (ParseRequest L r).1,
      (∃ v, (ka.1, v) ∈ (ServeHTTP L F db now r).db ∧ L.jsonUnmarshal v = (none, ka.2)) ∧
      ¬ (now - ka.2.UpdatedAt > 24 * Hour)) ∧
    (∀ e ∈ db, e.1 ≠ (ParseRequest L r).1.InfoHash ++ (ParseRequest L r).1.PeerID →
      e ∈ (ServeHTTP L F db now r).db) := by
  refine ⟨?_, ?_, ?_⟩
  · rcases ServeHTTP_resp L F db now r with ⟨msg, h⟩ | h
    · left; rw [h]; exact ⟨rfl, rfl, rfl⟩
    · right; exact h
  · intro ka hka
    obtain ⟨v, hv, _, hu, ht⟩ := swarmOf_in_store L now _ _ ka hka
    refine ⟨⟨v, hv, hu⟩, ?_⟩
    simp only [Hour, Second]
    omega
  · intro e he hk
    rcases ServeHTTP_db L F db now r with h | ⟨_, _, h | ⟨b, h⟩⟩
    · rw [h]; exact he
    · rw [h]; exact (mem_erase_iff _ _ _).mpr ⟨he, hk⟩
    · rw [h]; exact mem_insert_of_ne db _ b e he hk

theorem success_resp (L : Lib) (F : Faults) (db : Store) (now : Int) (r : HttpRequest)
    (hs : (ServeHTTP L F db now r).success) :
    (ServeHTTP L F db now r).body.res =
      successResp L (swarmOf L now (ServeHTTP L F db now r).db (ParseRequest L r).1) := by
  rcases ServeHTTP_resp L F db now r with ⟨msg, h⟩ | h
  · have := hs.2
    rw [h] at this
    simp [failure, DefaultInterval] at this
  · exact h

/-- C5: in every success response, `complete` is the number of listed peers
whose stored record has left = 0, `incomplete` is the number of all other listed
peers, and complete + incomplete is the length of the peer list. -/
theorem counts_match_peers (L : Lib) (F : Faults) (db : Store) (now : Int) (r : HttpRequest)
    (hs : (ServeHTTP L F db now r).success) :
    (ServeHTTP L F db now r).body.res.Peers =
      (swarmOf L now (ServeHTTP L F db now r).db (ParseRequest L r).1).map
        (fun ka => peerOf L ka.2) ∧
    (ServeHTTP L F db now r).body.res.Complete =
      ((swarmOf L now (ServeHTTP L F db now r).db (ParseRequest L r).1).countP
        (fun ka => decide (ka.2.Left = 0)) : Nat) ∧
    (ServeHTTP L F db now r).body.res.Incomplete =
      ((swarmOf L now (ServeHTTP L F db now r).db (ParseRequest L r).1).countP
        (fun ka => !decide (ka.2.Left = 0)) : Nat) ∧
    (ServeHTTP L F db now r).body.res.Complete + (ServeHTTP L F db now r).body.res.Incomplete =
      ((ServeHTTP L F db now r).body.res.Peers.length : Nat) := by
  rw [success_resp L F db now r hs]
  refine ⟨rfl, rfl, rfl, ?_⟩
  simp only [successResp, List.length_map]
  rw [List.length_eq_countP_add_countP (fun ka : Bytes × AnnounceReqWithTime => decide (ka.2.Left = 0))
    (swarmOf L now (ServeHTTP L F db now r).db (ParseRequest L r).1)]
  push_cast
  simp

theorem counts_match_peers_witness :
    (ServeHTTP refLib noFaults storeA 1000 (mkRequest hashA peerB "0" "completed")).body.res.Complete
      = 1 ∧
    (ServeHTTP refLib noFaults storeA 1000
      (mkRequest hashA peerB "0" "completed")).body.res.Incomplete = 1 ∧
    (ServeHTTP refLib noFaults storeA 1000 (mkRequest hashA peerB "0" "completed")).body.res.Complete
      + (ServeHTTP refLib noFaults storeA 1000
          (mkRequest hashA peerB "0" "completed")).body.res.Incomplete
      = ((ServeHTTP refLib noFaults storeA 1000
          (mkRequest hashA peerB "0" "completed")).body.res.Peers.length : Nat) :=
  ⟨by decide, by decide,
    (counts_match_peers refLib noFaults storeA 1000 (mkRequest hashA peerB "0" "completed")
      (by unfold Result.success; decide)).2.2.2⟩

/-! ## Validation and parsing failures -/

theorem ValidateReq_message (req : AnnounceReq) (msg : String)
    (h : ValidateReq req = some msg) : msg ≠ "" := by
  unfold ValidateReq at h
  split_ifs at h with h1 h2
  · simp only [Option.some.injEq] at h; subst h; decide
  · simp only [Option.some.injEq] at h; subst h; decide

/-- C6: `ValidateReq` accepts a request exactly when its info_hash and its
peer_id are each 20 bytes long; a parsed request where either has another
length (an absent parameter has length 0) is answered with a non-empty failure
reason, the handler makes no store call at all (no put and no delete, whatever
the event) and leaves the store as it was. -/
theorem invalid_length_rejected :
    (∀ req : AnnounceReq,
      ValidateReq req = none ↔ req.InfoHash.length = 20 ∧ req.PeerID.length = 20) ∧
    ∀ (L : Lib) (F : Faults) (db : Store) (now : Int) (r : HttpRequest),
      (ParseRequest L r).2 = none →
      ((ParseRequest L r).1.InfoHash.length ≠ 20 ∨ (ParseRequest L r).1.PeerID.length ≠ 20) →
      (ServeHTTP L F db now r).body.res.FailureReason ≠ "" ∧
      (ServeHTTP L F db now r).ops = [] ∧
      (ServeHTTP L F db now r).db = db := by
  refine ⟨ValidateReq_none_iff, ?_⟩
  intro L F db now r hp hlen
  rcases hpr : ParseRequest L r with ⟨req, err⟩
  rw [hpr] at hp hlen
  simp only at hp hlen
  subst hp
  cases hv : ValidateReq req with
  | none =>
    have := (ValidateReq_none_iff req).mp hv
    omega
  | some msg =>
    unfold ServeHTTP
    simp only [hpr, hv, res_WriteResp]
    exact ⟨ValidateReq_message req msg hv, trivial, trivial⟩

theorem invalid_length_rejected_witness :
    (ParseRequest refLib shortHashRequest).1.InfoHash.length = 19 ∧
    (ParseRequest refLib shortHashRequest).1.Event = ascii "stopped" ∧
    (ServeHTTP refLib noFaults storeA 1000 shortHashRequest).body.res.FailureReason ≠ "" ∧
    (ServeHTTP refLib noFaults storeA 1000 shortHashRequest).ops = [] ∧
    (ServeHTTP refLib noFaults storeA 1000 shortHashRequest).db = storeA :=
  ⟨by decide, by decide,
    invalid_length_rejected.2 refLib noFaults storeA 1000 shortHashRequest (by decide)
      (by decide)⟩

theorem parseUintLoop_digits (s : Bytes) (n m : Nat) (h : parseUintLoop s n = .ok m) :
    s.all (fun d => decide (48 ≤ d ∧ d ≤ 57)) = true := by
  induction s generalizing n with
  | nil => rfl
  | cons c cs ih =>
    unfold parseUintLoop at h
    split_ifs at h with h1 h2 h3
    simp only [List.all_cons, Bool.and_eq_true, decide_eq_true_eq]
    exact ⟨h1, ih _ h⟩

theorem ParseUint_digits (s : Bytes) (m : Nat) (h : ParseUint s = .ok m) :
    (!s.isEmpty && s.all (fun d => decide (48 ≤ d ∧ d ≤ 57))) = true := by
  unfold ParseUint at h
  split_ifs at h with h1
  have := parseUintLoop_digits s 0 m h
  cases s with
  | nil => exact absurd rfl h1
  | cons c cs => simpa using this

/-- What `ParseInt` accepts is a base-10 integer: a sign at most, then digits. -/
theorem ParseInt_ok_base10 (s : Bytes) (n : Int) (h : ParseInt s = .ok n) :
    isBase10Integer s = true := by
  cases s with
  | nil => simp [ParseInt] at h
  | cons c rest =>
    unfold ParseInt at h
    simp only at h
    unfold isBase10Integer
    simp only
    cases hu : ParseUint (if c = 43 ∨ c = 45 then rest else c :: rest) with
    | error e =>
      rw [hu] at h
      cases e <;> simp at h
    | ok un => exact ParseUint_digits _ un hu

theorem Atoi_ok_base10 (s : Bytes) (n : Int) (h : Atoi s = .ok n) :
    isBase10Integer s = true := by
  unfold Atoi at h
  cases hp : ParseInt s with
  | error e => rw [hp] at h; simp at h
  | ok m => exact ParseInt_ok_base10 s m hp

theorem NumError_message (e : NumError) : e.Error ≠ "" := by
  intro h
  have := congrArg String.length h
  simp only [NumError.Error, String.length_append] at this
  have h8 : "strconv.".length = 8 := by decide
  rw [h8] at this
  simp only [String.length] at this
  simp only [List.length_nil] at this
  omega

/-- `ParseRequest` succeeds only when the four numeric parameters are base-10 integers. -/
theorem ParseRequest_ok_numeric (L : Lib) (r : HttpRequest) (h : (ParseRequest L r).2 = none) :
    isBase10Integer (queryGet r.Query "downloaded") = true ∧
    isBase10Integer (queryGet r.Query "uploaded") = true ∧
    isBase10Integer (queryGet r.Query "left") = true ∧
    isBase10Integer (queryGet r.Query "port") = true := by
  unfold ParseRequest at h
  simp only at h
  cases h1 : ParseInt (queryGet r.Query "downloaded") with
  | error e => rw [h1] at h; simp at h
  | ok d =>
    cases h2 : ParseInt (queryGet r.Query "uploaded") with
    | error e => rw [h1, h2] at h; simp at h
    | ok u =>
      cases h3 : ParseInt (queryGet r.Query "left") with
      | error e => rw [h1, h2, h3] at h; simp at h
      | ok l =>
        cases h4 : Atoi (queryGet r.Query "port") with
        | error e => rw [h1, h2, h3, h4] at h; simp at h
        | ok p =>
          exact ⟨ParseInt_ok_base10 _ d h1, ParseInt_ok_base10 _ u h2,
            ParseInt_ok_base10 _ l h3, Atoi_ok_base10 _ p h4⟩

/-- C7: when one of the query parameters downloaded, uploaded, left or port is
missing (read as the empty string) or is not a base-10 integer, `ParseRequest`
fails, and the handler answers with a non-empty failure reason, makes no store
call (no write, no delete) and leaves the store as it was. -/
theorem malformed_number_rejected (L : Lib) (F : Faults) (db : Store) (now : Int)
    (r : HttpRequest)
    (hbad : isBase10Integer (queryGet r.Query "downloaded") = false ∨
      isBase10Integer (queryGet r.Query "uploaded") = false ∨
      isBase10Integer (queryGet r.Query "left") = false ∨
      isBase10Integer (queryGet r.Query "port") = false) :
    (ParseRequest L r).2 ≠ none ∧
    (ServeHTTP L F db now r).body.res.FailureReason ≠ "" ∧
    (ServeHTTP L F db now r).ops = [] ∧
    (ServeHTTP L F db now r).db = db := by
  have hfail : (ParseRequest L r).2 ≠ none := by
    intro h
    obtain ⟨h1, h2, h3, h4⟩ := ParseRequest_ok_numeric L r h
    rw [h1, h2, h3, h4] at hbad
    simp at hbad
  refine ⟨hfail, ?_⟩
  rcases hpr : ParseRequest L r with ⟨req, err⟩
  rw [hpr] at hfail
  cases err with
  | none => exact absurd rfl hfail
  | some e =>
    unfold ServeHTTP
    simp only [hpr, res_WriteResp]
    exact ⟨NumError_message e, trivial, trivial⟩

theorem malformed_number_rejected_witness :
    isBase10Integer (ascii "http") = false ∧ isBase10Integer [] = false ∧
    (ParseRequest refLib badPortRequest).2 ≠ none ∧
    (ServeHTTP refLib noFaults storeA 1000 badPortRequest).body.res.FailureReason ≠ "" ∧
    (ServeHTTP refLib noFaults storeA 1000 badPortRequest).ops = [] ∧
    (ServeHTTP refLib noFaults storeA 1000 badPortRequest).db = storeA :=
  ⟨by decide, by decide,
    malformed_number_rejected refLib noFaults storeA 1000 badPortRequest
      (Or.inr (Or.inr (Or.inr (by decide))))⟩

/-! ## The two-peer example -/

theorem checkPrev_absent (L : Lib) (now : Int) (db : Store) (key : Bytes)
    (h : db.lookup key = none) : checkPrev L noFaults now db key = none := by
  unfold checkPrev Get
  simp only [noFaults, h]

theorem fresh_of_read (L : Lib) (now : Int) (v : Bytes) (a : AnnounceReqWithTime)
    (hu : L.jsonUnmarshal v = (none, a)) (ht : now - a.UpdatedAt ≤ 86400000000000) :
    fresh L now v = some a := by
  unfold fresh
  have : ¬ timeSub now a.UpdatedAt > 24 * Hour := by
    rw [expired_iff]
    omega
  simp only [hu, this, if_false]

theorem window_pair (k1 k2 v1 v2 start : Bytes) (h1 : bytesLe start k1 = true)
    (h2 : bytesLe start k2 = true) :
    Store.window [(k1, v1), (k2, v2)] start (20 * 8) = [(k1, v1), (k2, v2)] := by
  unfold Store.window
  simp [List.filter_cons, h1, h2]

theorem listed_pair (L : Lib) (now : Int) (k1 k2 v1 v2 : Bytes) (a1 a2 : AnnounceReqWithTime)
    (h1 : fresh L now v1 = some a1) (h2 : fresh L now v2 = some a2) :
    listed L now [(k1, v1), (k2, v2)] = [(k1, a1), (k2, a2)] := by
  rw [listed_cons, listed_cons]
  simp only [h1, h2]
  rfl

theorem refLib_reads (r : AnnounceReqWithTime) :
    refLib.jsonUnmarshal (refMarshal r) = (none, r) :=
  refUnmarshal_refMarshal r

/-- C8: starting from an empty store, after an announce (H, P1, left = 0, event
completed) the store holds the serialized record at key H ++ P1; a following
announce (H, P2, left = 5) of a distinct peer, with an event other than
"stopped", served less than 24 hours later gets a success response whose peer
list holds exactly the two peers P1 and P2, with complete = 1 and incomplete = 1. -/
theorem two_peer_example (L : Lib) (t1 t2 : Int) (r1 r2 : HttpRequest)
    (req1 req2 : AnnounceReq) (b1 b2 : Bytes)
    (hp1 : ParseRequest L r1 = (req1, none)) (hp2 : ParseRequest L r2 = (req2, none))
    (hv1 : ValidateReq req1 = none) (hv2 : ValidateReq req2 = none)
    (hih : req2.InfoHash = req1.InfoHash) (hpid : req2.PeerID ≠ req1.PeerID)
    (hl1 : req1.Left = 0) (he1 : req1.Event = ascii "completed")
    (hl2 : req2.Left = 5) (he2 : req2.Event ≠ ascii "stopped")
    (hm1 : L.jsonMarshal { toAnnounceReq := req1, UpdatedAt := t1 } = .ok b1)
    (hm2 : L.jsonMarshal { toAnnounceReq := req2, UpdatedAt := t2 } = .ok b2)
    (hu1 : L.jsonUnmarshal b1 = (none, { toAnnounceReq := req1, UpdatedAt := t1 }))
    (hu2 : L.jsonUnmarshal b2 = (none, { toAnnounceReq := req2, UpdatedAt := t2 }))
    (hlater : t2 - t1 < 24 * Hour) :
    (ServeHTTP L noFaults [] t1 r1).db.lookup (req1.InfoHash ++ req1.PeerID) = some b1 ∧
    (ServeHTTP L noFaults (ServeHTTP L noFaults [] t1 r1).db t2 r2).success ∧
    (ServeHTTP L noFaults (ServeHTTP L noFaults [] t1 r1).db t2 r2).body.res.Peers.Perm
      [⟨L.IPString req1.RemoteAddr, req1.PeerID, req1.Port⟩,
       ⟨L.IPString req2.RemoteAddr, req2.PeerID, req2.Port⟩] ∧
    (ServeHTTP L noFaults (ServeHTTP L noFaults [] t1 r1).db t2 r2).body.res.Complete = 1 ∧
    (ServeHTTP L noFaults (ServeHTTP L noFaults [] t1 r1).db t2 r2).body.res.Incomplete = 1 := by
  have hlen1 := (ValidateReq_none_iff req1).mp hv1
  have hlen2 := (ValidateReq_none_iff req2).mp hv2
  have hne1 : req1.Event ≠ ascii "stopped" := by rw [he1]; decide
  have hkey : req2.InfoHash ++ req2.PeerID ≠ req1.InfoHash ++ req1.PeerID := by
    intro h
    exact hpid (List.append_inj h (by rw [hih])).2
  have hfirst : (ServeHTTP L noFaults [] t1 r1).db = [(req1.InfoHash ++ req1.PeerID, b1)] := by
    rw [ServeHTTP_put L noFaults [] t1 r1 req1 b1 hp1 hv1 hm1 hne1
      (checkPrev_absent L t1 [] _ rfl) rfl, enumerate_db]
    rfl
  have hlook : Store.lookup [(req1.InfoHash ++ req1.PeerID, b1)] (req2.InfoHash ++ req2.PeerID)
      = none := by
    apply lookup_none_of_absent
    intro e he
    simp only [List.mem_singleton] at he
    subst he
    exact fun h => hkey h.symm
  have hs1 : bytesLe (startKey req2) (req1.InfoHash ++ req1.PeerID) = true := by
    unfold startKey
    rw [hih]
    exact bytesLe_append_zeros _ _ 20 hlen1.2
  have hs2 : bytesLe (startKey req2) (req2.InfoHash ++ req2.PeerID) = true := by
    unfold startKey
    exact bytesLe_append_zeros _ _ 20 hlen2.2
  have hf1 : fresh L t2 b1 = some { toAnnounceReq := req1, UpdatedAt := t1 } := by
    apply fresh_of_read L t2 b1 _ hu1
    simp only [Hour, Second] at hlater
    simp only
    omega
  have hf2 : fresh L t2 b2 = some { toAnnounceReq := req2, UpdatedAt := t2 } := by
    apply fresh_of_read L t2 b2 _ hu2
    simp only
    omega
  refine ⟨by rw [hfirst]; simp [Store.lookup], ?_⟩
  rw [hfirst, ServeHTTP_put L noFaults _ t2 r2 req2 b2 hp2 hv2 hm2 he2
    (checkPrev_absent L t2 _ _ hlook) rfl, enumerate_ok _ _ _ _ _ _ rfl]
  simp only [Result.success, res_WriteResp]
  unfold swarmOf visited Store.insert
  split_ifs with hlt
  · rw [window_pair _ _ _ _ _ hs2 hs1, listed_pair L t2 _ _ _ _ _ _ hf2 hf1]
    simp only [successResp, peerOf, List.map_cons, List.map_nil, List.countP_cons,
      List.countP_nil, hl1, hl2]
    refine ⟨⟨trivial, trivial⟩, List.Perm.swap _ _ _, ?_, ?_⟩ <;> simp
  · have h3 : Store.insert (req2.InfoHash ++ req2.PeerID) b2 [] =
        [(req2.InfoHash ++ req2.PeerID, b2)] := rfl
    rw [h3, window_pair _ _ _ _ _ hs1 hs2, listed_pair L t2 _ _ _ _ _ _ hf1 hf2]
    simp only [successResp, peerOf, List.map_cons, List.map_nil, List.countP_cons,
      List.countP_nil, hl1, hl2]
    refine ⟨⟨trivial, trivial⟩, List.Perm.refl _, ?_, ?_⟩ <;> simp

theorem two_peer_example_witness :
    (ServeHTTP refLib noFaults (ServeHTTP refLib noFaults [] 0
        (mkRequest hashA peerA "0" "completed")).db 1000
        (mkRequest hashA peerB "5" "")).body.res.Peers.map (fun p => p.peerID) = [peerA, peerB] ∧
    (ServeHTTP refLib noFaults (ServeHTTP refLib noFaults [] 0
        (mkRequest hashA peerA "0" "completed")).db 1000
        (mkRequest hashA peerB "5" "")).body.res.Complete = 1 ∧
    (ServeHTTP refLib noFaults (ServeHTTP refLib noFaults [] 0
        (mkRequest hashA peerA "0" "completed")).db 1000
        (mkRequest hashA peerB "5" "")).body.res.Incomplete = 1 :=
  ⟨by decide,
    (two_peer_example refLib 0 1000 (mkRequest hashA peerA "0" "completed")
      (mkRequest hashA peerB "5" "") (parsedA "0" "completed")
      (ParseRequest refLib (mkRequest hashA peerB "5" "")).1
      (refMarshal ⟨parsedA "0" "completed", 0⟩)
      (refMarshal ⟨(ParseRequest refLib (mkRequest hashA peerB "5" "")).1, 1000⟩)
      (by decide) (by decide) (by decide) (by decide) (by decide) (by decide) (by decide)
      (by decide) (by decide) (by decide) rfl rfl (refLib_reads _)
      (refLib_reads _) (by decide)).2.2.2⟩

/-! ## The scanned window -/

/-- The store calls of any call of the handler, in order. -/
theorem ServeHTTP_ops (L : Lib) (F : Faults) (db : Store) (now : Int) (r : HttpRequest) :
    (ServeHTTP L F db now r).ops = [] ∨
    (ServeHTTP L F db now r).ops =
      [.delete ((ParseRequest L r).1.InfoHash ++ (ParseRequest L r).1.PeerID)] ∨
    (ServeHTTP L F db now r).ops =
      [.delete ((ParseRequest L r).1.InfoHash ++ (ParseRequest L r).1.PeerID),
       .walk (startKey (ParseRequest L r).1) 160] ∨
    (ServeHTTP L F db now r).ops =
      [.get ((ParseRequest L r).1.InfoHash ++ (ParseRequest L r).1.PeerID)] ∨
    (∃ b, (ServeHTTP L F db now r).ops =
      [.get ((ParseRequest L r).1.InfoHash ++ (ParseRequest L r).1.PeerID),
       .put ((ParseRequest L r).1.InfoHash ++ (ParseRequest L r).1.PeerID) b]) ∨
    (∃ b, (ServeHTTP L F db now r).ops =
      [.get ((ParseRequest L r).1.InfoHash ++ (ParseRequest L r).1.PeerID),
       .put ((ParseRequest L r).1.InfoHash ++ (ParseRequest L r).1.PeerID) b,
       .walk (startKey (ParseRequest L r).1) 160]) := by
  rcases hp : ParseRequest L r with ⟨req, err⟩
  cases err with
  | some e => left; unfold ServeHTTP; simp only [hp]
  | none =>
    cases hv : ValidateReq req with
    | some e => left; unfold ServeHTTP; simp only [hp, hv]
    | none =>
      cases hm : L.jsonMarshal { toAnnounceReq := req, UpdatedAt := now } with
      | error e => left; unfold ServeHTTP; simp only [hp, hv, hm]
      | ok b =>
        by_cases he : req.Event = ascii "stopped"
        · cases hd : F .delete with
          | none =>
            right; right; left
            rw [ServeHTTP_stopped L F db now r req b hp hv hm he hd, enumerate_ops]
            rfl
          | some msg =>
            right; left
            unfold ServeHTTP
            simp only [hp, hv, hm, he, if_true, Delete, hd]
        · cases hc : checkPrev L F now db (req.InfoHash ++ req.PeerID) with
          | some reason =>
            right; right; right; left
            rw [ServeHTTP_checked L F db now r req b reason hp hv hm he hc]
          | none =>
            cases hput : F .put with
            | none =>
              right; right; right; right; right
              rw [ServeHTTP_put L F db now r req b hp hv hm he hc hput, enumerate_ops]
              exact ⟨b, rfl⟩
            | some msg =>
              right; right; right; right; left
              unfold ServeHTTP
              simp only [hp, hv, hm, he, if_false, hc, Put, hput]
              exact ⟨b, rfl⟩

theorem ServeHTTP_sorted (L : Lib) (F : Faults) (db : Store) (now : Int) (r : HttpRequest)
    (hs : db.Sorted) : (ServeHTTP L F db now r).db.Sorted := by
  rcases ServeHTTP_db L F db now r with h | ⟨_, _, h | ⟨b, h⟩⟩
  · rw [h]; exact hs
  · rw [h]; exact erase_sorted db _ hs
  · rw [h]; exact insert_sorted db _ b hs

/-- C9 as stated fails: with a store that holds a record of the larger content
id `hashB`, an announce for `hashA` lists and counts that record, whose key does
not begin with `hashA`. -/
theorem foreign_peer_listed :
    fromPeer refLib hashA peerA (mkRequest hashA peerA "7" "started") ∧
    (hashB ++ peerB, recordB) ∈
      swarmOf refLib 1000
        (ServeHTTP refLib noFaults storeB 1000 (mkRequest hashA peerA "7" "started")).db
        (parsedA "7" "started") ∧
    hashA.isPrefixOf (hashB ++ peerB) = false ∧
    (ServeHTTP refLib noFaults storeB 1000 (mkRequest hashA peerA "7" "started")).body.res.Peers
      = [peerOf refLib ⟨parsedA "7" "started", 1000⟩, peerOf refLib recordB] ∧
    (ServeHTTP refLib noFaults storeB 1000 (mkRequest hashA peerA "7" "started")).body.res.Complete
      = 1 := by
  refine ⟨by decide, by decide, by decide, by decide, by decide⟩

/-- C9, amended: for every store state and every request, the response is a
failure without peers and counts, or its peer list and counts are built from the
swarm; every record of the swarm was read from a stored value under a key that
is not below info_hash ++ 20 zero bytes in key order (the key need not begin
with the request's info_hash). -/
theorem swarm_keys_from_start (L : Lib) (F : Faults) (db : Store) (now : Int)
    (r : HttpRequest) :
    (((ServeHTTP L F db now r).body.res.Peers = [] ∧
        (ServeHTTP L F db now r).body.res.Complete = 0 ∧
        (ServeHTTP L F db now r).body.res.Incomplete = 0) ∨
      (ServeHTTP L F db now r).body.res =
        successResp L (swarmOf L now (ServeHTTP L F db now r).db (ParseRequest L r).1)) ∧
    ∀ ka ∈ swarmOf L now (ServeHTTP L F db now r).db (ParseRequest L r).1,
      ∃ v, (ka.1, v) ∈ (ServeHTTP L F db now r).db ∧ L.jsonUnmarshal v = (none, ka.2) ∧
        bytesLe ((ParseRequest L r).1.InfoHash ++ List.replicate 20 0) ka.1 = true := by
  refine ⟨?_, ?_⟩
  · rcases ServeHTTP_resp L F db now r with ⟨msg, h⟩ | h
    · left; rw [h]; exact ⟨rfl, rfl, rfl⟩
    · right; exact h
  · intro ka hka
    obtain ⟨v, hv, hle, hu, _⟩ := swarmOf_in_store L now _ _ ka hka
    exact ⟨v, hv, hu, hle⟩

/-- C10: for every store state in key order and every request, a scan made by
the handler is the call `Walk` with start key info_hash ++ 20 zero bytes and
count 160; the records it visits are at most 160, in ascending key order, with
keys from the start key on; the peer list is empty or built from the visited
records, so it has at most 160 entries, and complete + incomplete is at most 160. -/
theorem scan_window_bounded (L : Lib) (F : Faults) (db : Store) (now : Int) (r : HttpRequest)
    (hs : db.Sorted) :
    (∀ op ∈ (ServeHTTP L F db now r).ops, ∀ k n, op = DBOp.walk k n →
      k = (ParseRequest L r).1.InfoHash ++ List.replicate 20 0 ∧ n = 160) ∧
    (visited (ServeHTTP L F db now r).db (ParseRequest L r).1).length ≤ 160 ∧
    (visited (ServeHTTP L F db now r).db (ParseRequest L r).1).Pairwise
      (fun a b => bytesLt a.1 b.1 = true) ∧
    (∀ e ∈ visited (ServeHTTP L F db now r).db (ParseRequest L r).1,
      e ∈ (ServeHTTP L F db now r).db ∧
      bytesLe ((ParseRequest L r).1.InfoHash ++ List.replicate 20 0) e.1 = true) ∧
    ((ServeHTTP L F db now r).body.res.Peers = [] ∨
      (ServeHTTP L F db now r).body.res.Peers =
        (listed L now (visited (ServeHTTP L F db now r).db (ParseRequest L r).1)).map
          (fun ka => peerOf L ka.2)) ∧
    (ServeHTTP L F db now r).body.res.Peers.length ≤ 160 ∧
    (ServeHTTP L F db now r).body.res.Complete + (ServeHTTP L F db now r).body.res.Incomplete
      ≤ 160 := by
  have hres := ServeHTTP_resp L F db now r
  have hlen := swarmOf_length L now (ServeHTTP L F db now r).db (ParseRequest L r).1
  refine ⟨?_, visited_length _ _, window_sorted _ _ _ (ServeHTTP_sorted L F db now r hs),
    fun e he => window_subset _ _ _ e he, peers_of_resp L F db now r, ?_, ?_⟩
  · intro op hop k n hk
    subst hk
    rcases ServeHTTP_ops L F db now r with h | h | h | h | ⟨b, h⟩ | ⟨b, h⟩ <;>
      rw [h] at hop <;> simp [startKey] at hop ⊢ <;> simp [hop]
  · rcases hres with ⟨msg, h⟩ | h
    · rw [h]; simp [failure]
    · rw [h]; simpa [successResp] using hlen
  · rcases hres with ⟨msg, h⟩ | h
    · rw [h]; simp [failure]
    · rw [h]
      have h1 := List.length_eq_countP_add_countP
        (fun ka : Bytes × AnnounceReqWithTime => decide (ka.2.Left = 0))
        (swarmOf L now (ServeHTTP L F db now r).db (ParseRequest L r).1)
      simp only [successResp]
      simp only [Bool.not_eq_true, decide_eq_false_iff_not, decide_eq_true_eq] at h1
      have h2 : (fun ka : Bytes × AnnounceReqWithTime => !decide (ka.2.Left = 0)) =
          (fun ka => decide ¬ ka.2.Left = 0) := by
        funext ka
        simp
      rw [h2]
      omega

theorem scan_window_bounded_witness :
    storeB.Sorted ∧
    (ServeHTTP refLib noFaults storeB 1000 (mkRequest hashA peerA "7" "started")).ops =
      [.get (hashA ++ peerA), .put (hashA ++ peerA) (refMarshal ⟨parsedA "7" "started", 1000⟩),
       .walk (hashA ++ List.replicate 20 0) 160] ∧
    (ServeHTTP refLib noFaults storeB 1000
      (mkRequest hashA peerA "7" "started")).body.res.Peers.length ≤ 160 :=
  ⟨by unfold Store.Sorted; decide, by decide,
    (scan_window_bounded refLib noFaults storeB 1000 (mkRequest hashA peerA "7" "started")
      (by unfold Store.Sorted; decide)).2.2.2.2.2.1⟩

/-! ## Writing the record -/

theorem checkPrev_passed (L : Lib) (now : Int) (db : Store) (key : Bytes)
    (h : db.lookup key = none ∨
      ∃ pb, db.lookup key = some pb ∧ (L.jsonUnmarshal pb).2.UpdatedAt + 60 * Second ≤ now) :
    checkPrev L noFaults now db key = none := by
  rcases h with h | ⟨pb, hl, ht⟩
  · exact checkPrev_absent L now db key h
  · have hnot : ¬ timeSub now (L.jsonUnmarshal pb).2.UpdatedAt < Second * DefaultInterval := by
      rw [tooEarly_iff]
      simp only [Second] at ht
      omega
    unfold checkPrev Get
    simp only [noFaults, hl, hnot, if_false]
    split_ifs <;> rfl

/-! ## Store failures -/

theorem checkPrev_get_fault (L : Lib) (F : Faults) (now : Int) (db : Store) (key : Bytes)
    (msg : String) (h : F .get = some msg) : checkPrev L F now db key = some msg := by
  unfold checkPrev Get
  simp only [h]

/-- C12: for a valid request whose record serializes, a failing store call ends
the request. A failing delete of a "stopped" announce, a failing get of the
prior record, a failing put of the new record or a failing scan is the last
store call of the request, and the response is the literal
`HttpResponse{FailureReason: msg}` with that error's message, without peers and
with zero counts. -/
theorem store_failure_aborts (L : Lib) (F : Faults) (db : Store) (now : Int) (r : HttpRequest)
    (req : AnnounceReq) (b : Bytes)
    (hp : ParseRequest L r = (req, none)) (hv : ValidateReq req = none)
    (hm : L.jsonMarshal { toAnnounceReq := req, UpdatedAt := now } = .ok b) :
    (∀ msg, (failure msg).FailureReason = msg ∧ (failure msg).Peers = [] ∧
      (failure msg).Complete = 0 ∧ (failure msg).Incomplete = 0) ∧
    (∀ msg, req.Event = ascii "stopped" → F .delete = some msg →
      (ServeHTTP L F db now r).body.res = failure msg ∧
      (ServeHTTP L F db now r).ops = [.delete (req.InfoHash ++ req.PeerID)] ∧
      (ServeHTTP L F db now r).db = db) ∧
    (∀ msg, req.Event ≠ ascii "stopped" → F .get = some msg →
      (ServeHTTP L F db now r).body.res = failure msg ∧
      (ServeHTTP L F db now r).ops = [.get (req.InfoHash ++ req.PeerID)] ∧
      (ServeHTTP L F db now r).db = db) ∧
    (∀ msg, req.Event ≠ ascii "stopped" →
      checkPrev L F now db (req.InfoHash ++ req.PeerID) = none → F .put = some msg →
      (ServeHTTP L F db now r).body.res = failure msg ∧
      (ServeHTTP L F db now r).ops =
        [.get (req.InfoHash ++ req.PeerID), .put (req.InfoHash ++ req.PeerID) b] ∧
      (ServeHTTP L F db now r).db = db) ∧
    (∀ msg, F .walk = some msg →
      DBOp.walk (startKey req) 160 ∈ (ServeHTTP L F db now r).ops →
      (ServeHTTP L F db now r).body.res = failure msg ∧
      (ServeHTTP L F db now r).ops.getLast? = some (.walk (startKey req) 160)) := by
  refine ⟨fun msg => ⟨rfl, rfl, rfl, rfl⟩, ?_, ?_, ?_, ?_⟩
  · intro msg he hd
    unfold ServeHTTP
    simp only [hp, hv, hm, he, if_true, Delete, hd, res_WriteResp]
    exact ⟨trivial, trivial, trivial⟩
  · intro msg he hg
    rw [ServeHTTP_checked L F db now r req b msg hp hv hm he
      (checkPrev_get_fault L F now db _ msg hg), res_WriteResp]
    exact ⟨rfl, rfl, rfl⟩
  · intro msg he hc hput
    unfold ServeHTTP
    simp only [hp, hv, hm, he, if_false, hc, Put, hput, res_WriteResp]
    exact ⟨trivial, trivial, trivial⟩
  · intro msg hw hmem
    by_cases he : req.Event = ascii "stopped"
    · cases hd : F .delete with
      | none =>
        rw [ServeHTTP_stopped L F db now r req b hp hv hm he hd,
          enumerate_err _ _ _ _ _ _ msg hw, res_WriteResp]
        exact ⟨rfl, rfl⟩
      | some m2 =>
        exfalso
        unfold ServeHTTP at hmem
        simp [hp, hv, hm, he, Delete, hd] at hmem
    · cases hc : checkPrev L F now db (req.InfoHash ++ req.PeerID) with
      | some reason =>
        exfalso
        rw [ServeHTTP_checked L F db now r req b reason hp hv hm he hc] at hmem
        simp at hmem
      | none =>
        cases hput : F .put with
        | none =>
          rw [ServeHTTP_put L F db now r req b hp hv hm he hc hput,
            enumerate_err _ _ _ _ _ _ msg hw, res_WriteResp]
          exact ⟨rfl, rfl⟩
        | some m2 =>
          exfalso
          unfold ServeHTTP at hmem
          simp [hp, hv, hm, he, hc, Put, hput] at hmem

theorem store_failure_aborts_witness :
    (ServeHTTP refLib failingPut [] 1000 (mkRequest hashA peerA "7" "started")).body.res
      = failure "disk full" ∧
    (ServeHTTP refLib failingPut [] 1000 (mkRequest hashA peerA "7" "started")).ops =
      [.get ((parsedA "7" "started").InfoHash ++ (parsedA "7" "started").PeerID),
       .put ((parsedA "7" "started").InfoHash ++ (parsedA "7" "started").PeerID)
         (refMarshal ⟨parsedA "7" "started", 1000⟩)] ∧
    (ServeHTTP refLib failingPut [] 1000 (mkRequest hashA peerA "7" "started")).db = [] :=
  (store_failure_aborts refLib failingPut [] 1000 (mkRequest hashA peerA "7" "started")
    (parsedA "7" "started") (refMarshal ⟨parsedA "7" "started", 1000⟩)
    (by decide) (by decide) rfl).2.2.2.1 "disk full" (by decide) (by decide) rfl

/-! ## Response encoding -/

/-- Every response is written by `WriteResp` with the `Compact` flag of the
request as `ParseRequest` returned it. -/
theorem body_WriteResp (L : Lib) (F : Faults) (db : Store) (now : Int) (r : HttpRequest) :
    (ServeHTTP L F db now r).body =
      WriteResp (ServeHTTP L F db now r).body.res (ParseRequest L r).1.Compact := by
  rcases hp : ParseRequest L r with ⟨req, err⟩
  cases err with
  | some e => unfold ServeHTTP; simp only [hp, res_WriteResp]
  | none =>
    cases hv : ValidateReq req with
    | some e => unfold ServeHTTP; simp only [hp, hv, res_WriteResp]
    | none =>
      cases hm : L.jsonMarshal { toAnnounceReq := req, UpdatedAt := now } with
      | error e => unfold ServeHTTP; simp only [hp, hv, hm, res_WriteResp]
      | ok b =>
        by_cases he : req.Event = ascii "stopped"
        · cases hd : F .delete with
          | none =>
            rw [ServeHTTP_stopped L F db now r req b hp hv hm he hd]
            cases hw : F .walk with
            | none => rw [enumerate_ok _ _ _ _ _ _ hw, res_WriteResp]
            | some msg => rw [enumerate_err _ _ _ _ _ _ msg hw, res_WriteResp]
          | some msg =>
            unfold ServeHTTP
            simp only [hp, hv, hm, he, if_true, Delete, hd, res_WriteResp]
        · cases hc : checkPrev L F now db (req.InfoHash ++ req.PeerID) with
          | some reason =>
            rw [ServeHTTP_checked L F db now r req b reason hp hv hm he hc, res_WriteResp]
          | none =>
            cases hput : F .put with
            | none =>
              rw [ServeHTTP_put L F db now r req b hp hv hm he hc hput]
              cases hw : F .walk with
              | none => rw [enumerate_ok _ _ _ _ _ _ hw, res_WriteResp]
              | some msg => rw [enumerate_err _ _ _ _ _ _ msg hw, res_WriteResp]
            | some msg =>
              unfold ServeHTTP
              simp only [hp, hv, hm, he, if_false, hc, Put, hput, res_WriteResp]

/-- The two outcomes of `ParseRequest`: the zero request with an error, or no
error and the fields read from the query. -/
theorem ParseRequest_cases (L : Lib) (r : HttpRequest) :
    ((ParseRequest L r).1 = AnnounceReq.zero ∧ ∃ e, (ParseRequest L r).2 = some e) ∨
    ((ParseRequest L r).2 = none ∧
      (ParseRequest L r).1.Compact = decide (queryGet r.Query "compact" = ascii "1") ∧
      (ParseRequest L r).1.InfoHash = queryGet r.Query "info_hash" ∧
      (ParseRequest L r).1.PeerID = queryGet r.Query "peer_id" ∧
      Atoi (queryGet r.Query "port") = .ok (ParseRequest L r).1.Port ∧
      (ParseRequest L r).1.RemoteAddr =
        (if containsColon r.RemoteAddr then L.ParseIP (splitColonHead r.RemoteAddr)
         else L.ParseIP r.RemoteAddr)) := by
  unfold ParseRequest
  simp only
  rcases h1 : ParseInt (queryGet r.Query "downloaded") with e | d
  · left; exact ⟨rfl, e, rfl⟩
  · rcases h2 : ParseInt (queryGet r.Query "uploaded") with e | u
    · left; exact ⟨rfl, e, rfl⟩
    · rcases h3 : ParseInt (queryGet r.Query "left") with e | l
      · left; exact ⟨rfl, e, rfl⟩
      · rcases h4 : Atoi (queryGet r.Query "port") with e | p
        · left; exact ⟨rfl, e, rfl⟩
        · right; exact ⟨rfl, rfl, rfl, rfl, rfl, rfl⟩

/-- The `Compact` flag `ParseRequest` returns: set exactly when parsing succeeds
and the `compact` parameter is the string "1". -/
theorem ParseRequest_compact (L : Lib) (r : HttpRequest) :
    (ParseRequest L r).1.Compact =
      decide ((ParseRequest L r).2 = none ∧ queryGet r.Query "compact" = ascii "1") := by
  rcases ParseRequest_cases L r with ⟨h1, e, h2⟩ | ⟨h1, h2, _⟩
  · rw [h1, h2]
    simp [AnnounceReq.zero]
  · rw [h2, h1]
    simp

/-- C13: for every request, the body is the bencoding of the response when the
request parsed and its `compact` parameter is exactly the string "1", and the
JSON encoding of the same response structure in every other case (compact
absent or any other string, or a parse failure). -/
theorem encoding_follows_compact (L : Lib) (F : Faults) (db : Store) (now : Int)
    (r : HttpRequest) :
    (ServeHTTP L F db now r).body =
      (if (ParseRequest L r).2 = none ∧ queryGet r.Query "compact" = ascii "1"
        then Body.bencode (ServeHTTP L F db now r).body.res
        else Body.json (ServeHTTP L F db now r).body.res) ∧
    ((∃ x, (ServeHTTP L F db now r).body = Body.bencode x) ↔
      ((ParseRequest L r).2 = none ∧ queryGet r.Query "compact" = ascii "1")) ∧
    ascii "true" ≠ ascii "1" ∧ ascii "01" ≠ ascii "1" ∧ ([] : Bytes) ≠ ascii "1" := by
  have h := body_WriteResp L F db now r
  rw [ParseRequest_compact] at h
  have hbody : (ServeHTTP L F db now r).body =
      (if (ParseRequest L r).2 = none ∧ queryGet r.Query "compact" = ascii "1"
        then Body.bencode (ServeHTTP L F db now r).body.res
        else Body.json (ServeHTTP L F db now r).body.res) := by
    rw [h]
    unfold WriteResp
    by_cases hc : (ParseRequest L r).2 = none ∧ queryGet r.Query "compact" = ascii "1"
    · simp only [hc, and_self, decide_True, if_true, Body.res]
    · simp only [hc, decide_False, if_false, Body.res, Bool.false_eq_true]
  refine ⟨hbody, ?_, by decide, by decide, by decide⟩
  by_cases hc : (ParseRequest L r).2 = none ∧ queryGet r.Query "compact" = ascii "1"
  · rw [hbody]
    simp only [hc, and_self, if_true, iff_true]
    exact ⟨_, rfl⟩
  · rw [hbody]
    simp only [hc, if_false, iff_false]
    rintro ⟨x, hx⟩
    cases hx

/-! ## The store key -/

/-- C14 as stated fails: the key of a validated request is 20 + 20 = 40 bytes
long, not 44. -/
theorem key_is_forty_bytes :
    fromPeer refLib hashA peerA (mkRequest hashA peerA "7" "started") ∧
    (ServeHTTP refLib noFaults [] 1000 (mkRequest hashA peerA "7" "started")).ops =
      [.get (hashA ++ peerA), .put (hashA ++ peerA) (refMarshal ⟨parsedA "7" "started", 1000⟩),
       .walk (hashA ++ List.replicate 20 0) 160] ∧
    (hashA ++ peerA).length = 40 ∧ (hashA ++ peerA).length ≠ 44 := by
  refine ⟨by decide, by decide, by decide, by decide⟩

/-- C14, amended: for every request that passes validation, the key of every
get, put and delete the handler makes is the plain concatenation of info_hash
followed by peer_id, and that key is 40 bytes long. -/
theorem key_is_concatenation (L : Lib) (F : Faults) (db : Store) (now : Int) (r : HttpRequest)
    (req : AnnounceReq) (hp : ParseRequest L r = (req, none)) (hv : ValidateReq req = none) :
    (∀ op ∈ (ServeHTTP L F db now r).ops, ∀ k v,
      (op = DBOp.get k ∨ op = DBOp.put k v ∨ op = DBOp.delete k) →
        k = req.InfoHash ++ req.PeerID) ∧
    (req.InfoHash ++ req.PeerID).length = 40 := by
  have hlen := (ValidateReq_none_iff req).mp hv
  refine ⟨?_, by rw [List.length_append, hlen.1, hlen.2]⟩
  intro op hop k v hk
  have hops := ServeHTTP_ops L F db now r
  rw [hp] at hops
  simp only at hops
  rcases hops with h | h | h | h | ⟨b, h⟩ | ⟨b, h⟩ <;> rw [h] at hop <;>
    simp only [List.mem_cons, List.mem_singleton, List.not_mem_nil, or_false] at hop <;>
    rcases hk with hk | hk | hk <;> subst hk <;> simp at hop <;> first | exact hop | exact hop.1

theorem key_is_concatenation_witness :
    (∀ op ∈ (ServeHTTP refLib noFaults storeA 1000 (mkRequest hashA peerA "7" "stopped")).ops,
      ∀ k v, (op = DBOp.get k ∨ op = DBOp.put k v ∨ op = DBOp.delete k) →
        k = (parsedA "7" "stopped").InfoHash ++ (parsedA "7" "stopped").PeerID) ∧
    ((parsedA "7" "stopped").InfoHash ++ (parsedA "7" "stopped").PeerID).length = 40 :=
  key_is_concatenation refLib noFaults storeA 1000 (mkRequest hashA peerA "7" "stopped")
    (parsedA "7" "stopped") (by decide) (by decide)

/-! ## The port -/

theorem ParseInt_range (s : Bytes) (n : Int) (h : ParseInt s = .ok n) :
    -(2 ^ 63) ≤ n ∧ n ≤ 2 ^ 63 - 1 := by
  cases s with
  | nil => simp [ParseInt] at h
  | cons c rest =>
    unfold ParseInt at h
    simp only at h
    cases hu : ParseUint (if c = 43 ∨ c = 45 then rest else c :: rest) with
    | error e =>
      rw [hu] at h
      cases e <;> simp at h
    | ok un =>
      rw [hu] at h
      simp only at h
      by_cases hneg : c = 45
      · simp only [hneg, decide_True, Bool.not_true, Bool.false_and, Bool.true_and,
          decide_eq_true_eq, if_true, Bool.false_eq_true, if_false] at h
        split_ifs at h with h1
        simp only [Except.ok.injEq] at h
        omega
      · simp only [hneg, decide_False, Bool.not_false, Bool.true_and, Bool.false_and,
          decide_eq_true_eq, Bool.false_eq_true, if_false] at h
        split_ifs at h with h1
        simp only [Except.ok.injEq] at h
        omega

theorem Atoi_range (s : Bytes) (n : Int) (h : Atoi s = .ok n) :
    -(2 ^ 63) ≤ n ∧ n ≤ 2 ^ 63 - 1 := by
  unfold Atoi at h
  cases hp : ParseInt s with
  | error e => rw [hp] at h; simp at h
  | ok m =>
    rw [hp] at h
    simp only [Except.ok.injEq] at h
    subst h
    exact ParseInt_range s m hp

/-- C15 as stated fails: `ParseRequest` accepts the port parameters 70000 and -1,
and the record with port 70000 is written to the store. -/
theorem port_outside_uint16_accepted :
    (ParseRequest refLib (portRequest "70000")).2 = none ∧
    (ParseRequest refLib (portRequest "70000")).1.Port = 70000 ∧
    (ParseRequest refLib (portRequest "-1")).2 = none ∧
    (ParseRequest refLib (portRequest "-1")).1.Port = -1 ∧
    (∃ v a, (ServeHTTP refLib noFaults [] 1000 (portRequest "70000")).db.lookup (hashA ++ peerA)
        = some v ∧ refLib.jsonUnmarshal v = (none, a) ∧ a.Port = 70000) ∧
    ¬ ((0 : Int) ≤ 70000 ∧ (70000 : Int) ≤ 65535) := by
  refine ⟨by decide, by decide, by decide, by decide, ?_, by decide⟩
  exact ⟨refMarshal ⟨(ParseRequest refLib (portRequest "70000")).1, 1000⟩,
    ⟨(ParseRequest refLib (portRequest "70000")).1, 1000⟩, by decide, refLib_reads _, by decide⟩

/-- C15, amended: every request that `ParseRequest` accepts has a port that is a
Go int, -2^63 <= port <= 2^63 - 1, namely the value `strconv.Atoi` reads from
the port parameter; no narrower range is checked. -/
theorem port_is_machine_int (L : Lib) (r : HttpRequest) (h : (ParseRequest L r).2 = none) :
    Atoi (queryGet r.Query "port") = .ok (ParseRequest L r).1.Port ∧
    -(2 ^ 63) ≤ (ParseRequest L r).1.Port ∧ (ParseRequest L r).1.Port ≤ 2 ^ 63 - 1 := by
  rcases ParseRequest_cases L r with ⟨_, e, h2⟩ | ⟨_, _, _, _, h5, _⟩
  · rw [h2] at h
    exact absurd h (by simp)
  · exact ⟨h5, Atoi_range _ _ h5⟩

theorem port_is_machine_int_witness :
    Atoi (queryGet (portRequest "70000").Query "port")
      = .ok (ParseRequest refLib (portRequest "70000")).1.Port ∧
    -(2 ^ 63) ≤ (ParseRequest refLib (portRequest "70000")).1.Port ∧
    (ParseRequest refLib (portRequest "70000")).1.Port ≤ 2 ^ 63 - 1 :=
  port_is_machine_int refLib (portRequest "70000") (by decide)

/-! ## The peer list -/

theorem fresh_iff (L : Lib) (now : Int) (v : Bytes) (a : AnnounceReqWithTime) :
    fresh L now v = some a ↔
      (L.jsonUnmarshal v = (none, a) ∧ now - a.UpdatedAt ≤ 24 * Hour) := by
  constructor
  · intro h
    unfold fresh at h
    rcases hu : L.jsonUnmarshal v with ⟨err, x⟩
    rw [hu] at h
    cases err with
    | some msg => simp at h
    | none =>
      simp only at h
      split_ifs at h with hx
      simp only [Option.some.injEq] at h
      subst h
      have := (expired_iff now x.UpdatedAt).not.mp hx
      refine ⟨rfl, ?_⟩
      simp only [Hour, Second]
      omega
  · rintro ⟨hu, ht⟩
    apply fresh_of_read L now v a hu
    simp only [Hour, Second] at ht
    omega

theorem peers_filterMap (L : Lib) (now : Int) (es : List (Bytes × Bytes)) :
    (listed L now es).map (fun ka => peerOf L ka.2) =
      es.filterMap (fun e => (fresh L now e.2).map (peerOf L)) := by
  unfold listed
  rw [List.map_filterMap]
  congr 1
  funext e
  cases fresh L now e.2 <;> rfl

/-! ## The throttle boundary -/

/-- C17: a valid announce with an event other than "stopped", served by a
working store whose key holds a non-empty value that deserializes to a prior
record, is answered "too early to update" exactly when now - prior.updated_at
is less than 60 seconds. A rejected announce returns the failure literal (no
peer list, zero counts) after the get alone and leaves the store as it was; at
60 seconds or more the announce succeeds and the serialized record is bound to
the key. -/
theorem throttle_boundary (L : Lib) (db : Store) (now : Int) (r : HttpRequest)
    (req : AnnounceReq) (b pb : Bytes) (prev : AnnounceReqWithTime)
    (hp : ParseRequest L r = (req, none)) (hv : ValidateReq req = none)
    (he : req.Event ≠ ascii "stopped")
    (hm : L.jsonMarshal { toAnnounceReq := req, UpdatedAt := now } = .ok b)
    (hl : db.lookup (req.InfoHash ++ req.PeerID) = some pb) (hne : pb ≠ [])
    (hprev : L.jsonUnmarshal pb = (none, prev)) :
    ((ServeHTTP L noFaults db now r).body.res.FailureReason = "too early to update" ↔
      now - prev.UpdatedAt < 60 * Second) ∧
    (now - prev.UpdatedAt < 60 * Second →
      (ServeHTTP L noFaults db now r).body.res = failure "too early to update" ∧
      (ServeHTTP L noFaults db now r).body.res.Peers = [] ∧
      (ServeHTTP L noFaults db now r).body.res.Complete = 0 ∧
      (ServeHTTP L noFaults db now r).body.res.Incomplete = 0 ∧
      (ServeHTTP L noFaults db now r).ops = [.get (req.InfoHash ++ req.PeerID)] ∧
      (ServeHTTP L noFaults db now r).db = db) ∧
    (60 * Second ≤ now - prev.UpdatedAt →
      (ServeHTTP L noFaults db now r).success ∧
      (ServeHTTP L noFaults db now r).db.lookup (req.InfoHash ++ req.PeerID) = some b ∧
      (ServeHTTP L noFaults db now r).ops =
        [.get (req.InfoHash ++ req.PeerID), .put (req.InfoHash ++ req.PeerID) b,
         .walk (startKey req) 160]) := by
  have hu : (L.jsonUnmarshal pb).2.UpdatedAt = prev.UpdatedAt := by rw [hprev]
  have hearly : now - prev.UpdatedAt < 60 * Second →
      ServeHTTP L noFaults db now r =
        ⟨WriteResp (failure "too early to update") req.Compact, db,
          [.get (req.InfoHash ++ req.PeerID)]⟩ := by
    intro h
    apply ServeHTTP_checked L noFaults db now r req b _ hp hv hm he
    apply checkPrev_early L now prev.UpdatedAt db _ pb hl hne hu
    simp only [Second] at h
    omega
  have hlate : 60 * Second ≤ now - prev.UpdatedAt →
      ServeHTTP L noFaults db now r =
        ⟨WriteResp (successResp L (swarmOf L now
            (Store.insert (req.InfoHash ++ req.PeerID) b db) req)) req.Compact,
          Store.insert (req.InfoHash ++ req.PeerID) b db,
          [.get (req.InfoHash ++ req.PeerID), .put (req.InfoHash ++ req.PeerID) b] ++
            [.walk (startKey req) 160]⟩ := by
    intro h
    rw [ServeHTTP_put L noFaults db now r req b hp hv hm he
      (checkPrev_passed L now db _ (Or.inr ⟨pb, hl, by rw [hu]; omega⟩)) rfl,
      enumerate_ok _ _ _ _ _ _ rfl]
  refine ⟨⟨?_, ?_⟩, ?_, ?_⟩
  · intro hf
    by_contra hcon
    rw [hlate (by omega), res_WriteResp] at hf
    simp [successResp] at hf
  · intro h
    rw [hearly h, res_WriteResp]
    rfl
  · intro h
    rw [hearly h, res_WriteResp]
    exact ⟨rfl, rfl, rfl, rfl, rfl, rfl⟩
  · intro h
    rw [hlate h]
    refine ⟨?_, lookup_insert_self db _ b, rfl⟩
    unfold Result.success
    rw [res_WriteResp]
    exact ⟨rfl, rfl⟩

theorem throttle_boundary_witness :
    (ServeHTTP refLib noFaults storeA 60000000000
      (mkRequest hashA peerA "0" "completed")).success ∧
    (ServeHTTP refLib noFaults storeA 59999999999
      (mkRequest hashA peerA "0" "completed")).body.res = failure "too early to update" :=
  ⟨((throttle_boundary refLib storeA 60000000000 (mkRequest hashA peerA "0" "completed")
      (parsedA "0" "completed") (refMarshal ⟨parsedA "0" "completed", 60000000000⟩)
      (refMarshal ⟨parsedA "7" "started", 0⟩) ⟨parsedA "7" "started", 0⟩
      (by decide) (by decide) (by decide) rfl (by decide) (by decide)
      (refLib_reads _)).2.2 (by decide)).1,
    by decide⟩

/-! ## A prior value that does not deserialize -/

/-- C18 fails on the code: the stored value `damagedValue` does not deserialize
(the decoder reports an error) but the decoder has filled `UpdatedAt`, and the
handler, which only logs the error, compares that time: an announce 10 seconds
after the stamp is answered "too early to update", nothing is written and the
damaged value stays. -/
theorem damaged_prior_still_throttles :
    damagedValue ≠ [] ∧
    (typeErrorLib.jsonUnmarshal damagedValue).1 ≠ none ∧
    (typeErrorLib.jsonUnmarshal damagedValue).2.UpdatedAt = 0 ∧
    fromPeer typeErrorLib hashA peerA (mkRequest hashA peerA "7" "started") ∧
    (ServeHTTP typeErrorLib noFaults [(hashA ++ peerA, damagedValue)] 10000000000
      (mkRequest hashA peerA "7" "started")).body.res = failure "too early to update" ∧
    (ServeHTTP typeErrorLib noFaults [(hashA ++ peerA, damagedValue)] 10000000000
      (mkRequest hashA peerA "7" "started")).ops = [.get (hashA ++ peerA)] ∧
    (ServeHTTP typeErrorLib noFaults [(hashA ++ peerA, damagedValue)] 10000000000
      (mkRequest hashA peerA "7" "started")).db = [(hashA ++ peerA, damagedValue)] := by
  refine ⟨by decide, by decide, by decide, by decide, by decide, by decide, by decide⟩

/-! ## The remote address -/

/-- Whether `ParseRequest` fails does not depend on the library. -/
theorem ParseRequest_error_lib (L L2 : Lib) (r : HttpRequest) :
    (ParseRequest L r).2 = (ParseRequest L2 r).2 := by
  unfold ParseRequest
  simp only
  rcases ParseInt (queryGet r.Query "downloaded") with e | d
  · rfl
  · rcases ParseInt (queryGet r.Query "uploaded") with e | u
    · rfl
    · rcases ParseInt (queryGet r.Query "left") with e | l
      · rfl
      · rcases Atoi (queryGet r.Query "port") with e | p <;> rfl

/-! ## Frame -/

theorem lookup_insert_ne (db : Store) (k v k2 : Bytes) (h : k2 ≠ k) :
    (Store.insert k v db).lookup k2 = db.lookup k2 := by
  have hb : (k == k2) = false := by
    simp only [beq_eq_false_iff_ne, ne_eq]
    exact fun e => h e.symm
  induction db with
  | nil => simp [Store.insert, Store.lookup, hb]
  | cons e rest ih =>
    obtain ⟨k1, v1⟩ := e
    unfold Store.insert
    split_ifs with h1 h2
    · simp [Store.lookup, List.find?_cons, hb]
    · subst h2
      simp [Store.lookup, List.find?_cons, hb]
    · unfold Store.lookup at ih ⊢
      rw [List.find?_cons, List.find?_cons]
      cases hk : (k1 == k2)
      · simp only
        exact ih
      · rfl

theorem lookup_erase_ne (db : Store) (k k2 : Bytes) (h : k2 ≠ k) :
    (db.erase k).lookup k2 = db.lookup k2 := by
  induction db with
  | nil => rfl
  | cons e rest ih =>
    obtain ⟨k1, v1⟩ := e
    unfold Store.erase Store.lookup at ih ⊢
    rw [List.filter_cons]
    by_cases h1 : k1 = k
    · subst h1
      have hb : (k1 == k2) = false := by
        simp only [beq_eq_false_iff_ne, ne_eq]
        exact fun e => h e.symm
      simp only [bne_self_eq_false, Bool.false_eq_true, if_false, List.find?_cons, hb]
      exact ih
    · have hb : (k1 != k) = true := by simpa using h1
      simp only [hb, if_true, List.find?_cons]
      cases hk : (k1 == k2)
      · simp only
        exact ih
      · rfl

/-- Every call ends with a failure literal and the store untouched, or with the
enumeration over the store after the delete or put. -/
theorem ServeHTTP_form (L : Lib) (F : Faults) (db : Store) (now : Int) (r : HttpRequest) :
    (∃ msg ops, ServeHTTP L F db now r =
      ⟨WriteResp (failure msg) (ParseRequest L r).1.Compact, db, ops⟩) ∨
    (∃ db1 ops, ServeHTTP L F db now r = enumerate L F now (ParseRequest L r).1 db1 ops) := by
  rcases hp : ParseRequest L r with ⟨req, err⟩
  cases err with
  | some e => left; unfold ServeHTTP; simp only [hp]; exact ⟨_, _, rfl⟩
  | none =>
    cases hv : ValidateReq req with
    | some e => left; unfold ServeHTTP; simp only [hp, hv]; exact ⟨_, _, rfl⟩
    | none =>
      cases hm : L.jsonMarshal { toAnnounceReq := req, UpdatedAt := now } with
      | error e => left; unfold ServeHTTP; simp only [hp, hv, hm]; exact ⟨_, _, rfl⟩
      | ok b =>
        by_cases he : req.Event = ascii "stopped"
        · cases hd : F .delete with
          | none =>
            right
            exact ⟨_, _, ServeHTTP_stopped L F db now r req b hp hv hm he hd⟩
          | some msg =>
            left
            unfold ServeHTTP
            simp only [hp, hv, hm, he, if_true, Delete, hd]
            exact ⟨_, _, rfl⟩
        · cases hc : checkPrev L F now db (req.InfoHash ++ req.PeerID) with
          | some reason =>
            left
            exact ⟨_, _, ServeHTTP_checked L F db now r req b reason hp hv hm he hc⟩
          | none =>
            cases hput : F .put with
            | none =>
              right
              exact ⟨_, _, ServeHTTP_put L F db now r req b hp hv hm he hc hput⟩
            | some msg =>
              left
              unfold ServeHTTP
              simp only [hp, hv, hm, he, if_false, hc, Put, hput]
              exact ⟨_, _, rfl⟩

/-- C20: for every store state and every request, the handler leaves the value
of every key other than the request's info_hash ++ peer_id as it was; and when
`ParseRequest` fails, when validation fails, or when the request is answered
"too early to update" (the scan not failing with that very message), the whole
store is as it was. -/
theorem frame_other_keys (L : Lib) (F : Faults) (db : Store) (now : Int) (r : HttpRequest) :
    (∀ k, k ≠ (ParseRequest L r).1.InfoHash ++ (ParseRequest L r).1.PeerID →
      (ServeHTTP L F db now r).db.lookup k = db.lookup k) ∧
    ((ParseRequest L r).2 ≠ none → (ServeHTTP L F db now r).db = db) ∧
    (ValidateReq (ParseRequest L r).1 ≠ none → (ServeHTTP L F db now r).db = db) ∧
    ((ServeHTTP L F db now r).body.res.FailureReason = "too early to update" →
      F .walk ≠ some "too early to update" → (ServeHTTP L F db now r).db = db) := by
  refine ⟨?_, ?_, ?_, ?_⟩
  · intro k hk
    rcases ServeHTTP_db L F db now r with h | ⟨_, _, h | ⟨b, h⟩⟩
    · rw [h]
    · rw [h]; exact lookup_erase_ne db _ k hk
    · rw [h]; exact lookup_insert_ne db _ b k hk
  · intro hpe
    rcases ServeHTTP_db L F db now r with h | ⟨h1, _⟩
    · exact h
    · exact absurd h1 hpe
  · intro hve
    rcases ServeHTTP_db L F db now r with h | ⟨_, h2, _⟩
    · exact h
    · exact absurd h2 hve
  · intro hf hw
    rcases ServeHTTP_form L F db now r with ⟨msg, ops, h⟩ | ⟨db1, ops, h⟩
    · rw [h]
    · exfalso
      rw [h] at hf
      cases hwalk : F .walk with
      | none =>
        rw [enumerate_ok _ _ _ _ _ _ hwalk, res_WriteResp] at hf
        simp [successResp] at hf
      | some msg =>
        rw [enumerate_err _ _ _ _ _ _ msg hwalk, res_WriteResp] at hf
        simp only [failure] at hf
        rw [hf] at hwalk
        exact hw hwalk

theorem frame_other_keys_witness :
    (ServeHTTP refLib noFaults storeB 1000 (mkRequest hashA peerA "7" "started")).db.lookup
      (hashB ++ peerB) = storeB.lookup (hashB ++ peerB) ∧
    (storeB.lookup (hashB ++ peerB)).isSome = true ∧
    (ServeHTTP refLib noFaults storeA 1000 (mkRequest hashA peerA "7" "started")).db = storeA :=
  ⟨(frame_other_keys refLib noFaults storeB 1000 (mkRequest hashA peerA "7" "started")).1
      (hashB ++ peerB) (by decide),
    by decide,
    (frame_other_keys refLib noFaults storeA 1000 (mkRequest hashA peerA "7" "started")).2.2.2
      (by decide) (by decide)⟩

/-! ## The handler with separate clock reads -/

theorem walkerAt_instant (L : Lib) (now : Int) : walkerAt L (Clock.instant now) = walker L now :=
  rfl

theorem enumerateAt_instant (L : Lib) (F : Faults) (now : Int) (req : AnnounceReq) (db : Store)
    (ops : List DBOp) :
    enumerateAt L F (Clock.instant now) req db ops = enumerate L F now req db ops := by
  unfold enumerateAt enumerate
  rw [walkerAt_instant]

/-- With all clock reads at one instant, `ServeHTTPAt` is `ServeHTTP`. -/
theorem ServeHTTPAt_instant (L : Lib) (F : Faults) (db : Store) (now : Int) (r : HttpRequest) :
    ServeHTTPAt L F db (Clock.instant now) r = ServeHTTP L F db now r := by
  unfold ServeHTTPAt ServeHTTP
  simp only [enumerateAt_instant]
  rfl

theorem listedAt_cons (L : Lib) (scan : Bytes → Int) (e : Bytes × Bytes)
    (es : List (Bytes × Bytes)) :
    listedAt L scan (e :: es) =
      match fresh L (scan e.1) e.2 with
      | some a => (e.1, a) :: listedAt L scan es
      | none => listedAt L scan es := by
  unfold listedAt
  rw [List.filterMap_cons]
  cases fresh L (scan e.1) e.2 <;> rfl

theorem listedAt_length_le (L : Lib) (scan : Bytes → Int) (es : List (Bytes × Bytes)) :
    (listedAt L scan es).length ≤ es.length := by
  unfold listedAt
  exact List.length_filterMap_le _ _

/-- The callback with its own clock reads run over a list of entries: it never
stops or fails, whatever the values are. -/
theorem walkLoop_walkerAt (L : Lib) (c : Clock) (es : List (Bytes × Bytes))
    (resp : HttpResponse) :
    walkLoop (walkerAt L c) es resp =
      ({ resp with
          Complete := bump resp.Complete
            ((listedAt L c.scan es).countP (fun ka => decide (ka.2.Left = 0))),
          Incomplete := bump resp.Incomplete
            ((listedAt L c.scan es).countP (fun ka => !decide (ka.2.Left = 0))),
          Peers := resp.Peers ++ (listedAt L c.scan es).map (fun ka => peerOf L ka.2) },
        none) := by
  induction es generalizing resp with
  | nil => simp [walkLoop, listedAt, bump]
  | cons e rest ih =>
    have hstep : walkerAt L c resp e.1 e.2 =
        (match fresh L (c.scan e.1) e.2 with
         | some a => addPeer L resp a
         | none => resp, true, none) := walker_eq L (c.scan e.1) resp e.1 e.2
    rw [walkLoop_cons _ e rest resp _ hstep, listedAt_cons, ih]
    cases hf : fresh L (c.scan e.1) e.2 with
    | none => rfl
    | some a =>
      by_cases hl : a.Left = 0
      · simp [addPeer, hl, bump_succ_left, peerOf]
      · simp [addPeer, hl, bump_succ_left, peerOf]

theorem enumerateAt_ok (L : Lib) (F : Faults) (c : Clock) (req : AnnounceReq) (db : Store)
    (ops : List DBOp) (hw : F .walk = none) :
    enumerateAt L F c req db ops =
      ⟨WriteResp (successResp L (listedAt L c.scan (visited db req))) req.Compact, db,
        ops ++ [.walk (startKey req) 160]⟩ := by
  have hlen := (listedAt_length_le L c.scan (visited db req)).trans (visited_length db req)
  have h1 := List.countP_le_length (fun ka : Bytes × AnnounceReqWithTime => decide (ka.2.Left = 0))
    (l := listedAt L c.scan (visited db req))
  have h2 := List.countP_le_length (fun ka : Bytes × AnnounceReqWithTime => !decide (ka.2.Left = 0))
    (l := listedAt L c.scan (visited db req))
  unfold enumerateAt Walk
  simp only [hw]
  rw [walkLoop_walkerAt]
  simp only [List.nil_append]
  unfold visited at h1 h2 hlen
  rw [bump_zero_eq _ (by omega), bump_zero_eq _ (by omega)]
  rfl

theorem enumerateAt_err (L : Lib) (F : Faults) (c : Clock) (req : AnnounceReq) (db : Store)
    (ops : List DBOp) (msg : String) (hw : F .walk = some msg) :
    enumerateAt L F c req db ops =
      ⟨WriteResp (failure msg) req.Compact, db, ops ++ [.walk (startKey req) 160]⟩ := by
  unfold enumerateAt Walk
  simp only [hw]

theorem enumerateAt_db (L : Lib) (F : Faults) (c : Clock) (req : AnnounceReq) (db : Store)
    (ops : List DBOp) : (enumerateAt L F c req db ops).db = db := by
  cases hw : F .walk with
  | none => rw [enumerateAt_ok _ _ _ _ _ _ hw]
  | some msg => rw [enumerateAt_err _ _ _ _ _ _ msg hw]

theorem enumerateAt_ops (L : Lib) (F : Faults) (c : Clock) (req : AnnounceReq) (db : Store)
    (ops : List DBOp) :
    (enumerateAt L F c req db ops).ops = ops ++ [.walk (startKey req) 160] := by
  cases hw : F .walk with
  | none => rw [enumerateAt_ok _ _ _ _ _ _ hw]
  | some msg => rw [enumerateAt_err _ _ _ _ _ _ msg hw]

theorem ServeHTTPAt_stopped (L : Lib) (F : Faults) (db : Store) (c : Clock) (r : HttpRequest)
    (req : AnnounceReq) (b : Bytes) (hp : ParseRequest L r = (req, none))
    (hv : ValidateReq req = none)
    (hm : L.jsonMarshal { toAnnounceReq := req, UpdatedAt := c.stamp } = .ok b)
    (he : req.Event = ascii "stopped") (hd : F .delete = none) :
    ServeHTTPAt L F db c r =
      enumerateAt L F c req (db.erase (req.InfoHash ++ req.PeerID))
        [.delete (req.InfoHash ++ req.PeerID)] := by
  unfold ServeHTTPAt
  simp only [hp, hv, hm, he, if_true, Delete, hd]

theorem ServeHTTPAt_checked (L : Lib) (F : Faults) (db : Store) (c : Clock) (r : HttpRequest)
    (req : AnnounceReq) (b : Bytes) (reason : String) (hp : ParseRequest L r = (req, none))
    (hv : ValidateReq req = none)
    (hm : L.jsonMarshal { toAnnounceReq := req, UpdatedAt := c.stamp } = .ok b)
    (he : req.Event ≠ ascii "stopped")
    (hc : checkPrev L F c.check db (req.InfoHash ++ req.PeerID) = some reason) :
    ServeHTTPAt L F db c r =
      ⟨WriteResp (failure reason) req.Compact, db, [.get (req.InfoHash ++ req.PeerID)]⟩ := by
  unfold ServeHTTPAt
  simp only [hp, hv, hm, he, if_false, hc]

theorem ServeHTTPAt_put (L : Lib) (F : Faults) (db : Store) (c : Clock) (r : HttpRequest)
    (req : AnnounceReq) (b : Bytes) (hp : ParseRequest L r = (req, none))
    (hv : ValidateReq req = none)
    (hm : L.jsonMarshal { toAnnounceReq := req, UpdatedAt := c.stamp } = .ok b)
    (he : req.Event ≠ ascii "stopped")
    (hc : checkPrev L F c.check db (req.InfoHash ++ req.PeerID) = none) (hput : F .put = none) :
    ServeHTTPAt L F db c r =
      enumerateAt L F c req (Store.insert (req.InfoHash ++ req.PeerID) b db)
        [.get (req.InfoHash ++ req.PeerID), .put (req.InfoHash ++ req.PeerID) b] := by
  unfold ServeHTTPAt
  simp only [hp, hv, hm, he, if_false, hc, Put, hput]

/-- Every call ends with a failure literal, the store untouched and no scan made,
or with the enumeration over the store after the delete or the put at the
request's own key. -/
theorem ServeHTTPAt_cases (L : Lib) (F : Faults) (db : Store) (c : Clock) (r : HttpRequest) :
    (∃ msg ops, ServeHTTPAt L F db c r =
        ⟨WriteResp (failure msg) (ParseRequest L r).1.Compact, db, ops⟩ ∧
      DBOp.walk (startKey (ParseRequest L r).1) 160 ∉ ops) ∨
    (∃ db1 ops, ServeHTTPAt L F db c r = enumerateAt L F c (ParseRequest L r).1 db1 ops ∧
      (db1 = db.erase ((ParseRequest L r).1.InfoHash ++ (ParseRequest L r).1.PeerID) ∨
        ∃ b, db1 =
          Store.insert ((ParseRequest L r).1.InfoHash ++ (ParseRequest L r).1.PeerID) b db)) := by
  rcases hp : ParseRequest L r with ⟨req, err⟩
  cases err with
  | some e => left; unfold ServeHTTPAt; simp only [hp]; exact ⟨_, _, rfl, by simp⟩
  | none =>
    cases hv : ValidateReq req with
    | some e => left; unfold ServeHTTPAt; simp only [hp, hv]; exact ⟨_, _, rfl, by simp⟩
    | none =>
      cases hm : L.jsonMarshal { toAnnounceReq := req, UpdatedAt := c.stamp } with
      | error e => left; unfold ServeHTTPAt; simp only [hp, hv, hm]; exact ⟨_, _, rfl, by simp⟩
      | ok b =>
        by_cases he : req.Event = ascii "stopped"
        · cases hd : F .delete with
          | none =>
            right
            exact ⟨_, _, ServeHTTPAt_stopped L F db c r req b hp hv hm he hd, Or.inl rfl⟩
          | some msg =>
            left
            unfold ServeHTTPAt
            simp only [hp, hv, hm, he, if_true, Delete, hd]
            exact ⟨_, _, rfl, by simp⟩
        · cases hc : checkPrev L F c.check db (req.InfoHash ++ req.PeerID) with
          | some reason =>
            left
            exact ⟨_, _, ServeHTTPAt_checked L F db c r req b reason hp hv hm he hc, by simp⟩
          | none =>
            cases hput : F .put with
            | none =>
              right
              exact ⟨_, _, ServeHTTPAt_put L F db c r req b hp hv hm he hc hput, Or.inr ⟨b, rfl⟩⟩
            | some msg =>
              left
              unfold ServeHTTPAt
              simp only [hp, hv, hm, he, if_false, hc, Put, hput]
              exact ⟨_, _, rfl, by simp⟩

/-! ## Update throttling with separate clock reads -/

theorem wrote_enumerateAt (L : Lib) (F : Faults) (c : Clock) (req : AnnounceReq) (db : Store)
    (key b : Bytes) :
    (enumerateAt L F c req db [.get key, .put key b]).wrote key = true := by
  unfold Result.wrote
  rw [enumerateAt_ops]
  simp

/-- One non-stop announce of a peer against a working store: either nothing is
written and the store is untouched, or the check of the prior record at the
instant `c.check` passed and the record stamped `c.stamp` is bound to the key. -/
theorem stepAt_cases (L : Lib) (db : Store) (c : Clock) (r : HttpRequest) (H P : Bytes)
    (hv : fromPeer L H P r) (hns : (ParseRequest L r).1.Event ≠ ascii "stopped") :
    ((ServeHTTPAt L noFaults db c r).wrote (H ++ P) = false ∧
        (ServeHTTPAt L noFaults db c r).db = db) ∨
    ((ServeHTTPAt L noFaults db c r).wrote (H ++ P) = true ∧
      ∃ b, L.jsonMarshal { toAnnounceReq := (ParseRequest L r).1, UpdatedAt := c.stamp } = .ok b ∧
        (ServeHTTPAt L noFaults db c r).db = Store.insert (H ++ P) b db ∧
        checkPrev L noFaults c.check db (H ++ P) = none) := by
  obtain ⟨h1, h2, h3, h4⟩ := hv
  rcases hp : ParseRequest L r with ⟨req, err⟩
  rw [hp] at h1 h2 h3 h4 hns
  simp only at h1 h2 h3 h4 hns
  subst h1 h3 h4
  cases hm : L.jsonMarshal { toAnnounceReq := req, UpdatedAt := c.stamp } with
  | error e =>
    left
    unfold ServeHTTPAt
    simp only [hp, h2, hm]
    exact ⟨rfl, trivial⟩
  | ok b =>
    cases hc : checkPrev L noFaults c.check db (req.InfoHash ++ req.PeerID) with
    | some reason =>
      left
      rw [ServeHTTPAt_checked L noFaults db c r req b reason hp h2 hm hns hc]
      exact ⟨wrote_get_only _ _ _ _, rfl⟩
    | none =>
      right
      rw [ServeHTTPAt_put L noFaults db c r req b hp h2 hm hns hc rfl]
      exact ⟨wrote_enumerateAt _ _ _ _ _ _ _, b, rfl, enumerateAt_db _ _ _ _ _ _, rfl⟩

/-- After a write stamped `w`, every later write of the run passes its throttle
check at least 60 seconds after `w`, and for any two writes of the run the check
of the later one is at least 60 seconds after the stamp of the earlier one. -/
theorem writeMarks_guarded (L : Lib) (H P : Bytes) (l : List (Clock × HttpRequest))
    (hjson : ∀ r b, L.jsonMarshal r = .ok b → b ≠ [] ∧ (L.jsonUnmarshal b).2.UpdatedAt = r.UpdatedAt)
    (hvalid : ∀ x ∈ l, fromPeer L H P x.2)
    (hns : ∀ x ∈ l, (ParseRequest L x.2).1.Event ≠ ascii "stopped")
    (hmono : (l.map (fun x => x.1.stamp)).Pairwise (fun a b => a ≤ b))
    (db : Store) (w : Int) (hg : stampedAt L db (H ++ P) w) (hw : ∀ x ∈ l, w ≤ x.1.stamp) :
    (∀ m ∈ writeMarks L noFaults (H ++ P) db l, w + 60000000000 ≤ m.2) ∧
    (writeMarks L noFaults (H ++ P) db l).Pairwise (fun a b => a.1 + 60000000000 ≤ b.2) := by
  induction l generalizing db w with
  | nil => simp [writeMarks]
  | cons x rest ih =>
    obtain ⟨c, r⟩ := x
    have hv := hvalid (c, r) (List.mem_cons_self _ _)
    have hn := hns (c, r) (List.mem_cons_self _ _)
    have hvr : ∀ x ∈ rest, fromPeer L H P x.2 := fun x hx => hvalid x (List.mem_cons_of_mem _ hx)
    have hnr : ∀ x ∈ rest, (ParseRequest L x.2).1.Event ≠ ascii "stopped" :=
      fun x hx => hns x (List.mem_cons_of_mem _ hx)
    rw [List.map_cons, List.pairwise_cons] at hmono
    have htr : ∀ x ∈ rest, c.stamp ≤ x.1.stamp :=
      fun x hx => hmono.1 x.1.stamp (List.mem_map_of_mem (fun x => x.1.stamp) hx)
    have hwc : w ≤ c.stamp := hw (c, r) (List.mem_cons_self _ _)
    unfold writeMarks
    rcases stepAt_cases L db c r H P hv hn with ⟨hwr, hdb⟩ | ⟨hwr, b, hm, hdb, hc⟩
    · rw [hwr, hdb]
      simp only [Bool.false_eq_true, if_false, List.nil_append]
      exact ih hvr hnr hmono.2 db w hg (fun x hx => hw x (List.mem_cons_of_mem _ hx))
    · rw [hwr, hdb]
      simp only [if_true, List.singleton_append, List.mem_cons, List.pairwise_cons]
      have hsp := checkPrev_none_spaced L c.check w db (H ++ P) hg hc
      have hg2 : stampedAt L (Store.insert (H ++ P) b db) (H ++ P) c.stamp :=
        ⟨b, lookup_insert_self db _ b, (hjson _ b hm).1, (hjson _ b hm).2⟩
      have hrec := ih hvr hnr hmono.2 (Store.insert (H ++ P) b db) c.stamp hg2 htr
      refine ⟨?_, hrec.1, hrec.2⟩
      intro u hu
      rcases hu with hu | hu
      · subst hu
        exact hsp
      · have := hrec.1 u hu
        omega

/-- C2, amended: for every sequence of valid announces of one peer with events
other than "stopped" (started, completed or empty), served by a working store
with record stamps that never go back: for any two announces of the sequence
that write the peer's record, the throttle check of the later one (the clock
read of line 168) is at least 60 seconds after the updated_at the earlier one
wrote (the clock read of line 144). -/
theorem writes_spaced_by_check (L : Lib) (H P : Bytes) (l : List (Clock × HttpRequest))
    (db : Store)
    (hjson : ∀ r b, L.jsonMarshal r = .ok b → b ≠ [] ∧ (L.jsonUnmarshal b).2.UpdatedAt = r.UpdatedAt)
    (hvalid : ∀ x ∈ l, fromPeer L H P x.2)
    (hns : ∀ x ∈ l, (ParseRequest L x.2).1.Event ≠ ascii "stopped")
    (hmono : (l.map (fun x => x.1.stamp)).Pairwise (fun a b => a ≤ b)) :
    (writeMarks L noFaults (H ++ P) db l).Pairwise (fun a b => a.1 + 60 * Second ≤ b.2) := by
  have key : (writeMarks L noFaults (H ++ P) db l).Pairwise
      (fun a b => a.1 + 60000000000 ≤ b.2) := by
    induction l generalizing db with
    | nil => simp [writeMarks]
    | cons x rest ih =>
      obtain ⟨c, r⟩ := x
      have hv := hvalid (c, r) (List.mem_cons_self _ _)
      have hn := hns (c, r) (List.mem_cons_self _ _)
      have hvr : ∀ x ∈ rest, fromPeer L H P x.2 :=
        fun x hx => hvalid x (List.mem_cons_of_mem _ hx)
      have hnr : ∀ x ∈ rest, (ParseRequest L x.2).1.Event ≠ ascii "stopped" :=
        fun x hx => hns x (List.mem_cons_of_mem _ hx)
      rw [List.map_cons, List.pairwise_cons] at hmono
      have htr : ∀ x ∈ rest, c.stamp ≤ x.1.stamp :=
        fun x hx => hmono.1 x.1.stamp (List.mem_map_of_mem (fun x => x.1.stamp) hx)
      unfold writeMarks
      rcases stepAt_cases L db c r H P hv hn with ⟨hwr, hdb⟩ | ⟨hwr, b, hm, hdb, _⟩
      · rw [hwr, hdb]
        simp only [Bool.false_eq_true, if_false, List.nil_append]
        exact ih db hvr hnr hmono.2
      · rw [hwr, hdb]
        simp only [if_true, List.singleton_append, List.pairwise_cons]
        have hg2 : stampedAt L (Store.insert (H ++ P) b db) (H ++ P) c.stamp :=
          ⟨b, lookup_insert_self db _ b, (hjson _ b hm).1, (hjson _ b hm).2⟩
        exact writeMarks_guarded L H P rest hjson hvr hnr hmono.2 _ c.stamp hg2 htr
  simpa [Second] using key

theorem writes_spaced_by_check_witness :
    writeMarks refLib noFaults (hashA ++ peerA) [] runDrift =
      [(0, 0), (59900000000, 60000000000), (119800000000, 119900000000)] ∧
    (writeMarks refLib noFaults (hashA ++ peerA) [] runDrift).Pairwise
      (fun a b => a.1 + 60 * Second ≤ b.2) :=
  ⟨by decide,
    writes_spaced_by_check refLib hashA peerA runDrift [] refLib_keeps_time
      (by decide) (by decide) (by decide)⟩

/-- Writes of the run `runDrift` are stamped 59.9 seconds apart: measured between
the stored stamps alone, the 60 seconds do not hold. -/
theorem stamps_within_interval :
    ¬ (writeMarks refLib noFaults (hashA ++ peerA) [] runDrift).Pairwise
        (fun a b => a.1 + 60 * Second ≤ b.1) := by
  have h : writeMarks refLib noFaults (hashA ++ peerA) [] runDrift =
      [(0, 0), (59900000000, 60000000000), (119800000000, 119900000000)] := by decide
  rw [h]
  simp [Second]

/-! ## The written record read back -/

theorem coerceLoop_of_valid (n : Nat) (s : Bytes) (h : validLoop n s = true) :
    coerceLoop n s = s := by
  induction n generalizing s with
  | zero =>
    cases s with
    | nil => rfl
    | cons a rest => simp [validLoop] at h
  | succ k ih =>
    cases s with
    | nil => rfl
    | cons a rest =>
      unfold validLoop at h
      simp only [Bool.and_eq_true, decide_eq_true_eq] at h
      unfold coerceLoop
      simp only [h.1, if_false]
      rw [ih _ h.2]
      exact List.take_append_drop _ _

theorem coerceUTF8_of_valid (s : Bytes) (h : validUTF8 s = true) : coerceUTF8 s = s :=
  coerceLoop_of_valid s.length s h

/-- The library `utf8Lib` reads back every record whose event string is valid
UTF-8. -/
theorem utf8Lib_reads (a : AnnounceReqWithTime) (v : Bytes)
    (hu : validUTF8 a.Event = true) (hm : utf8Lib.jsonMarshal a = .ok v) :
    utf8Lib.jsonUnmarshal v = (none, a) := by
  simp only [utf8Lib, Except.ok.injEq] at hm
  subst hm
  unfold utf8Marshal
  rw [coerceUTF8_of_valid _ hu]
  exact refUnmarshal_refMarshal a

/-- C11 as stated fails: a valid announce whose event is the byte FF, served by a
working empty store with the string coercion of encoding/json, leaves under its
key a value that deserializes without error to a record whose event is U+FFFD,
not the request's own event. -/
theorem invalid_utf8_event_not_read_back :
    fromPeer utf8Lib hashA peerA rawEventRequest ∧
    (ParseRequest utf8Lib rawEventRequest).1.Event = [255] ∧
    (ParseRequest utf8Lib rawEventRequest).1.Event ≠ ascii "stopped" ∧
    (∃ v a, (ServeHTTPAt utf8Lib noFaults [] (Clock.instant 1000) rawEventRequest).db.lookup
        (hashA ++ peerA) = some v ∧
      utf8Lib.jsonUnmarshal v = (none, a) ∧ a.Event = [239, 191, 189] ∧
      a.toAnnounceReq ≠ (ParseRequest utf8Lib rawEventRequest).1) := by
  refine ⟨by decide, by decide, by decide, ?_⟩
  exact ⟨utf8Marshal ⟨(ParseRequest utf8Lib rawEventRequest).1, 1000⟩,
    ⟨{ (ParseRequest utf8Lib rawEventRequest).1 with Event := [239, 191, 189] }, 1000⟩,
    by decide, by decide, by decide, by decide⟩

/-- C11, amended: a valid announce with an event other than "stopped" whose
event string is valid UTF-8, served by a working store that holds no record
under info_hash ++ peer_id, or one whose updated_at is at least 60 seconds
before the stamp of this request: afterwards the store maps that key to the
serialization of the request's own fields with updated_at = the stamp, and that
value deserializes to the same record, for every library that reads back the
records whose event is valid UTF-8. -/
theorem record_written (L : Lib) (db : Store) (c : Clock) (r : HttpRequest)
    (req : AnnounceReq) (b : Bytes)
    (hp : ParseRequest L r = (req, none)) (hv : ValidateReq req = none)
    (he : req.Event ≠ ascii "stopped")
    (hm : L.jsonMarshal { toAnnounceReq := req, UpdatedAt := c.stamp } = .ok b)
    (hutf : validUTF8 req.Event = true)
    (hlaw : ∀ a v, validUTF8 a.Event = true → L.jsonMarshal a = .ok v →
      L.jsonUnmarshal v = (none, a))
    (hclock : c.stamp ≤ c.check)
    (hprior : db.lookup (req.InfoHash ++ req.PeerID) = none ∨
      ∃ pb, db.lookup (req.InfoHash ++ req.PeerID) = some pb ∧
        (L.jsonUnmarshal pb).2.UpdatedAt + 60 * Second ≤ c.stamp) :
    (ServeHTTPAt L noFaults db c r).db.lookup (req.InfoHash ++ req.PeerID) = some b ∧
    L.jsonUnmarshal b = (none, { toAnnounceReq := req, UpdatedAt := c.stamp }) ∧
    (L.jsonUnmarshal b).2.UpdatedAt = c.stamp ∧
    (L.jsonUnmarshal b).2.toAnnounceReq = (ParseRequest L r).1 := by
  have hrt := hlaw { toAnnounceReq := req, UpdatedAt := c.stamp } b hutf hm
  have hpass : checkPrev L noFaults c.check db (req.InfoHash ++ req.PeerID) = none := by
    apply checkPrev_passed
    rcases hprior with h | ⟨pb, hl, ht⟩
    · exact Or.inl h
    · exact Or.inr ⟨pb, hl, by omega⟩
  refine ⟨?_, hrt, by rw [hrt], by rw [hrt, hp]⟩
  rw [ServeHTTPAt_put L noFaults db c r req b hp hv hm he hpass rfl, enumerateAt_db]
  exact lookup_insert_self db _ b

theorem record_written_witness :
    (ServeHTTPAt utf8Lib noFaults storeA ⟨60000000000, 60000000001, fun _ => 60000000002⟩
        (mkRequest hashA peerA "0" "completed")).db.lookup
      ((parsedA "0" "completed").InfoHash ++ (parsedA "0" "completed").PeerID)
      = some (utf8Marshal ⟨parsedA "0" "completed", 60000000000⟩) ∧
    utf8Lib.jsonUnmarshal (utf8Marshal ⟨parsedA "0" "completed", 60000000000⟩)
      = (none, ⟨parsedA "0" "completed", 60000000000⟩) :=
  ⟨(record_written utf8Lib storeA ⟨60000000000, 60000000001, fun _ => 60000000002⟩
      (mkRequest hashA peerA "0" "completed") (parsedA "0" "completed")
      (utf8Marshal ⟨parsedA "0" "completed", 60000000000⟩)
      (by decide) (by decide) (by decide) rfl (by decide) utf8Lib_reads (by decide)
      (Or.inr ⟨refMarshal ⟨parsedA "7" "started", 0⟩, by decide, by decide⟩)).1,
    (record_written utf8Lib storeA ⟨60000000000, 60000000001, fun _ => 60000000002⟩
      (mkRequest hashA peerA "0" "completed") (parsedA "0" "completed")
      (utf8Marshal ⟨parsedA "0" "completed", 60000000000⟩)
      (by decide) (by decide) (by decide) rfl (by decide) utf8Lib_reads (by decide)
      (Or.inr ⟨refMarshal ⟨parsedA "7" "started", 0⟩, by decide, by decide⟩)).2.1⟩

/-! ## The peer list of a scan -/

theorem peersAt_filterMap (L : Lib) (scan : Bytes → Int) (es : List (Bytes × Bytes)) :
    (listedAt L scan es).map (fun ka => peerOf L ka.2) =
      es.filterMap (fun e => (fresh L (scan e.1) e.2).map (peerOf L)) := by
  unfold listedAt
  rw [List.map_filterMap]
  congr 1
  funext e
  cases fresh L (scan e.1) e.2 <;> rfl

theorem ServeHTTPAt_sorted (L : Lib) (F : Faults) (db : Store) (c : Clock) (r : HttpRequest)
    (hs : db.Sorted) : (ServeHTTPAt L F db c r).db.Sorted := by
  rcases ServeHTTPAt_cases L F db c r with ⟨msg, ops, h, _⟩ | ⟨db1, ops, h, h1 | ⟨b, h1⟩⟩
  · rw [h]; exact hs
  · rw [h, enumerateAt_db, h1]; exact erase_sorted db _ hs
  · rw [h, enumerateAt_db, h1]; exact insert_sorted db _ b hs

/-- Once the handler calls the scan on a store whose scan works, the response is
the success response built from all visited records, whatever their values. -/
theorem scan_never_fails (L : Lib) (F : Faults) (db : Store) (c : Clock) (r : HttpRequest)
    (hmem : DBOp.walk (startKey (ParseRequest L r).1) 160 ∈ (ServeHTTPAt L F db c r).ops)
    (hw : F .walk = none) :
    (ServeHTTPAt L F db c r).body.res =
      successResp L (listedAt L c.scan
        (visited (ServeHTTPAt L F db c r).db (ParseRequest L r).1)) := by
  rcases ServeHTTPAt_cases L F db c r with ⟨msg, ops, h, hno⟩ | ⟨db1, ops, h, _⟩
  · rw [h] at hmem
    exact absurd hmem hno
  · rw [h, enumerateAt_ok _ _ _ _ _ _ hw, res_WriteResp]

theorem successAt_resp (L : Lib) (F : Faults) (db : Store) (c : Clock) (r : HttpRequest)
    (hs : (ServeHTTPAt L F db c r).success) :
    (ServeHTTPAt L F db c r).body.res =
      successResp L (listedAt L c.scan
        (visited (ServeHTTPAt L F db c r).db (ParseRequest L r).1)) := by
  rcases ServeHTTPAt_cases L F db c r with ⟨msg, ops, h, hno⟩ | ⟨db1, ops, h, _⟩
  · have := hs.2
    rw [h, res_WriteResp] at this
    simp [failure, DefaultInterval] at this
  · cases hw : F .walk with
    | none => rw [h, enumerateAt_ok _ _ _ _ _ _ hw, res_WriteResp]
    | some msg =>
      have := hs.2
      rw [h, enumerateAt_err _ _ _ _ _ _ msg hw, res_WriteResp] at this
      simp [failure, DefaultInterval] at this

/-- C16: for every store state in key order, every request and all clock reads,
the peer list of a success response is, in ascending key order of the visited
records, the descriptor {ip, peer id, port} of exactly those visited records
whose value deserializes without error and whose updated_at is at most 24
hours before the clock read at that record (exactly 24 hours included). No
record fails the request or stops the scan: once the handler calls the scan on
a store whose scan works, the response is a success response with that peer
list, whatever the visited values are. Every visited record, skipped or not, is
in the store afterwards. -/
theorem peer_list_of_visited (L : Lib) (F : Faults) (db : Store) (c : Clock) (r : HttpRequest)
    (hsorted : db.Sorted) :
    ((ServeHTTPAt L F db c r).success →
      (ServeHTTPAt L F db c r).body.res.Peers =
        (visited (ServeHTTPAt L F db c r).db (ParseRequest L r).1).filterMap
          (fun e => (fresh L (c.scan e.1) e.2).map (peerOf L))) ∧
    (DBOp.walk (startKey (ParseRequest L r).1) 160 ∈ (ServeHTTPAt L F db c r).ops →
      F .walk = none →
      (ServeHTTPAt L F db c r).success ∧
      (ServeHTTPAt L F db c r).body.res.Peers =
        (visited (ServeHTTPAt L F db c r).db (ParseRequest L r).1).filterMap
          (fun e => (fresh L (c.scan e.1) e.2).map (peerOf L))) ∧
    (∀ now v a, fresh L now v = some a ↔
      (L.jsonUnmarshal v = (none, a) ∧ now - a.UpdatedAt ≤ 24 * Hour)) ∧
    (∀ a, peerOf L a = ⟨L.IPString a.RemoteAddr, a.PeerID, a.Port⟩) ∧
    (visited (ServeHTTPAt L F db c r).db (ParseRequest L r).1).Pairwise
      (fun x y => bytesLt x.1 y.1 = true) ∧
    (∀ e ∈ visited (ServeHTTPAt L F db c r).db (ParseRequest L r).1,
      e ∈ (ServeHTTPAt L F db c r).db) := by
  refine ⟨?_, ?_, fun now => fresh_iff L now, fun a => rfl,
    window_sorted _ _ _ (ServeHTTPAt_sorted L F db c r hsorted),
    fun e he => (window_subset _ _ _ e he).1⟩
  · intro hs
    rw [successAt_resp L F db c r hs]
    simp only [successResp]
    exact peersAt_filterMap L c.scan _
  · intro hmem hw
    have h := scan_never_fails L F db c r hmem hw
    refine ⟨?_, ?_⟩
    · unfold Result.success
      rw [h]
      exact ⟨rfl, rfl⟩
    · rw [h]
      simp only [successResp]
      exact peersAt_filterMap L c.scan _

theorem peer_list_of_visited_witness :
    (ServeHTTPAt refLib noFaults mixedStore ⟨twoDays, twoDays, fun _ => twoDays⟩
      (mkRequest hashA peerA "7" "started")).success ∧
    (ServeHTTPAt refLib noFaults mixedStore ⟨twoDays, twoDays, fun _ => twoDays⟩
      (mkRequest hashA peerA "7" "started")).body.res.Peers.map (fun p => p.peerID) = [peerA] ∧
    (refLib.jsonUnmarshal [1, 2, 3]).1 ≠ none ∧
    fresh refLib twoDays (refMarshal recordB) = none ∧
    visited (ServeHTTPAt refLib noFaults mixedStore ⟨twoDays, twoDays, fun _ => twoDays⟩
        (mkRequest hashA peerA "7" "started")).db
        (ParseRequest refLib (mkRequest hashA peerA "7" "started")).1 =
      [(hashA ++ peerA, refMarshal ⟨parsedA "7" "started", twoDays⟩),
       (hashA ++ peerB, [1, 2, 3]), (hashB ++ peerB, refMarshal recordB)] :=
  ⟨((peer_list_of_visited refLib noFaults mixedStore ⟨twoDays, twoDays, fun _ => twoDays⟩
      (mkRequest hashA peerA "7" "started") (by unfold Store.Sorted; decide)).2.1
      (by decide) rfl).1,
    by decide, by decide, by decide, by decide⟩

/-! ## The remote address of a connection -/

theorem splitColonHead_append (host port : Bytes) (h : 58 ∉ host) :
    splitColonHead (host ++ 58 :: port) = host := by
  unfold splitColonHead
  induction host with
  | nil => simp
  | cons a rest ih =>
    have ha : a ≠ 58 := fun e => h (by rw [e]; exact List.mem_cons_self _ _)
    have hr : 58 ∉ rest := fun e => h (List.mem_cons_of_mem _ e)
    simp only [List.cons_append, List.takeWhile_cons, bne_iff_ne, ne_eq, ha, not_false_eq_true,
      if_true, List.cons.injEq, true_and]
    exact ih hr

theorem containsColon_append (host port : Bytes) :
    containsColon (host ++ 58 :: port) = true := by
  unfold containsColon
  simp

theorem containsColon_false (s : Bytes) (h : 58 ∉ s) : containsColon s = false := by
  unfold containsColon
  simpa using h

theorem splitColonHead_bracket (s : Bytes) :
    splitColonHead (91 :: s) = 91 :: splitColonHead s := by
  unfold splitColonHead
  simp [List.takeWhile_cons]

theorem parseDotted_bracket (s : Bytes) : dottedLib.ParseIP (91 :: s) = [] := by
  simp [dottedLib, parseDotted]

/-- The remote address `net.JoinHostPort` forms ends in a colon and the port, and
what stands before has no colon or starts with a bracket. -/
theorem JoinHostPort_form (ip port : Bytes) :
    ∃ host, JoinHostPort ip port = host ++ 58 :: port ∧ (58 ∉ host ∨ ∃ s, host = 91 :: s) := by
  unfold JoinHostPort
  by_cases h : ip.contains 58 = true
  · refine ⟨[91] ++ ip ++ [93], ?_, Or.inr ⟨ip ++ [93], rfl⟩⟩
    rw [if_pos h]
    simp
  · refine ⟨ip, ?_, Or.inl ?_⟩
    · rw [if_neg h]
      simp
    · simpa using h

/-- C19: for every remote address host:port of a connection (the port after the
last colon; the host without a colon, or in brackets when it is an IPv6 literal,
as `net.JoinHostPort` forms it), the remote_ip `ParseRequest` derives is the
result of parsing exactly host: for a host without a colon the very string is
parsed, and for a bracketed host such as `[::1]` the parser, which accepts no
string that starts with a bracket, gives nil for host and for what the code
hands it alike. For a remote address without a colon the whole string is
parsed. -/
theorem remote_ip_parses_host (L : Lib) (r : HttpRequest)
    (hbr : ∀ s, L.ParseIP (91 :: s) = [])
    (hok : (ParseRequest L r).2 = none) :
    (∀ host port, r.RemoteAddr = host ++ 58 :: port → 58 ∉ port →
      (58 ∉ host ∨ ∃ s, host = 91 :: s) →
      (ParseRequest L r).1.RemoteAddr = L.ParseIP host) ∧
    (58 ∉ r.RemoteAddr → (ParseRequest L r).1.RemoteAddr = L.ParseIP r.RemoteAddr) ∧
    (∀ ip port, ∃ host, JoinHostPort ip port = host ++ 58 :: port ∧
      (58 ∉ host ∨ ∃ s, host = 91 :: s)) := by
  have haddr : (ParseRequest L r).1.RemoteAddr =
      (if containsColon r.RemoteAddr then L.ParseIP (splitColonHead r.RemoteAddr)
       else L.ParseIP r.RemoteAddr) := by
    rcases ParseRequest_cases L r with ⟨_, e, h2⟩ | ⟨_, _, _, _, _, h6⟩
    · rw [hok] at h2
      exact absurd h2 (by simp)
    · exact h6
  refine ⟨?_, ?_, JoinHostPort_form⟩
  · intro host port hr _ hhost
    rw [haddr, hr, containsColon_append]
    simp only [if_true]
    rcases hhost with h | ⟨s, h⟩
    · rw [splitColonHead_append host port h]
    · subst h
      rw [List.cons_append, splitColonHead_bracket, hbr, hbr]
  · intro h
    rw [haddr, containsColon_false _ h]
    simp

theorem remote_ip_parses_host_witness :
    (ParseRequest dottedLib ipv6Request).1.RemoteAddr = dottedLib.ParseIP (ascii "[::1]") ∧
    (ParseRequest dottedLib (mkRequest hashA peerA "7" "started")).1.RemoteAddr
      = dottedLib.ParseIP (ascii "10.0.0.1") ∧
    dottedLib.ParseIP (ascii "10.0.0.1") = [0, 0, 0, 0, 0, 0, 0, 0, 0, 0, 255, 255, 10, 0, 0, 1] :=
  ⟨(remote_ip_parses_host dottedLib ipv6Request parseDotted_bracket (by decide)).1
      (ascii "[::1]") (ascii "8080") (by decide) (by decide) (Or.inr ⟨ascii "::1]", by decide⟩),
    (remote_ip_parses_host dottedLib (mkRequest hashA peerA "7" "started") parseDotted_bracket
      (by decide)).1 (ascii "10.0.0.1") (ascii "5000") (by decide) (by decide)
      (Or.inl (by decide)),
    by decide⟩

end Tracker
